import Mathlib

/-!
Shallow embedding of the core services of the ebay-order-processor
repository (year-range utilities, SKU identifier extraction, catalog
matching, color extraction, barcode assignment, order categorization),
together with theorems settling the frozen claims C1 to C10.

Python strings are modelled as Lean `String` or `List Char`; the data
processed by the repository is ASCII, and the embedding fixes ASCII
semantics for `str.upper`, `str.lower`, the regex classes of digits,
letters, whitespace and word characters, and `str.strip`.  Machine
floats appear only as shipping costs that are compared to zero and
never combined arithmetically; they are modelled as rationals.
`datetime.now().year` is modelled as an explicit parameter.
-/

namespace EbayProc

/-! ## Character and string helpers (ASCII semantics) -/

def isWS (c : Char) : Bool := c.isWhitespace

def isDigitC (c : Char) : Bool := c.isDigit

def isAlphaC (c : Char) : Bool := c.isAlpha

def isAlnumC (c : Char) : Bool := c.isAlpha || c.isDigit

/-- Regex word character (ASCII): letter, digit or underscore. -/
def isWordC (c : Char) : Bool := isAlnumC c || c == '_'

def upL (l : List Char) : List Char := l.map Char.toUpper

def loL (l : List Char) : List Char := l.map Char.toLower

/-- Python `str.strip()`. -/
def stripL (l : List Char) : List Char :=
  ((l.dropWhile isWS).reverse.dropWhile isWS).reverse

def stripS (s : String) : String := ⟨stripL s.data⟩

def upS (s : String) : String := ⟨upL s.data⟩

def loS (s : String) : String := ⟨loL s.data⟩

/-- Case-insensitive character comparison (regex IGNORECASE, ASCII). -/
def ciEqC (a b : Char) : Bool := a.toLower == b.toLower

/-- Does `s` start with `pat` (exact characters)? -/
def isPre : List Char → List Char → Bool
  | [], _ => true
  | _ :: _, [] => false
  | p :: ps, c :: cs => p == c && isPre ps cs

/-- Does `pat` occur as a contiguous substring of `s`?  Python `pat in s`. -/
def occursIn (pat : List Char) : List Char → Bool
  | [] => isPre pat []
  | c :: cs => isPre pat (c :: cs) || occursIn pat cs

/-- Split at the first occurrence of `pat`; Python `s.split(pat, 1)`
when the pattern occurs.  Returns the parts before and after. -/
def splitFirstOn (pat : List Char) : List Char → Option (List Char × List Char)
  | [] => none
  | c :: cs =>
    if isPre pat (c :: cs) then some ([], (c :: cs).drop pat.length)
    else
      match splitFirstOn pat cs with
      | some (a, b) => some (c :: a, b)
      | none => none

/-- Greedy one-or-more repetition of a character class; returns the
matched run and the rest.  Models a regex plus-quantifier over a class. -/
def many1 (p : Char → Bool) : List Char → Option (List Char × List Char)
  | [] => none
  | c :: cs =>
    if p c then some (c :: cs.takeWhile p, cs.dropWhile p) else none

/-- Case-insensitive literal; returns the consumed source characters
and the rest. -/
def litCI : List Char → List Char → Option (List Char × List Char)
  | [], s => some ([], s)
  | _ :: _, [] => none
  | p :: ps, c :: cs =>
    if ciEqC p c then
      match litCI ps cs with
      | some (a, r) => some (c :: a, r)
      | none => none
    else none

/-- Python `str.split()` with no argument: split on whitespace runs,
dropping empty parts.  Structural on a fuel that starts at the length
of the list; every step consumes at least one character. -/
def splitWsF : Nat → List Char → List (List Char)
  | 0, _ => []
  | _ + 1, [] => []
  | fuel + 1, c :: cs =>
    if isWS c then splitWsF fuel cs
    else (c :: cs.takeWhile (fun x => !isWS x)) :: splitWsF fuel (cs.dropWhile (fun x => !isWS x))

def splitWs (l : List Char) : List (List Char) := splitWsF l.length l

/-- Decimal digit character, Python style. -/
def digitCh (n : Nat) : Char := Char.ofNat (48 + n)

/-- Decimal representation of a natural number, Python `str(n)`.
Structural on a fuel that starts above the number itself; the number
shrinks by a factor of ten per step, so the fuel never runs out. -/
def natCharsF : Nat → Nat → List Char
  | 0, _ => []
  | fuel + 1, n =>
    if n < 10 then [digitCh n]
    else natCharsF fuel (n / 10) ++ [digitCh (n % 10)]

def natChars (n : Nat) : List Char := natCharsF (n + 1) n

/-- Python zero-padded integer formatting to a minimum width `w`. -/
def padNum (w n : Nat) : List Char :=
  List.replicate (w - (natChars n).length) '0' ++ natChars n

def padS (w n : Nat) : String := ⟨padNum w n⟩

/-! ## utils/date_utils.py

`normalize_year_range` performs three `re.sub` substitutions; each is
modelled by a position matcher (`...At`, returning the replacement text
and the rest after the matched span) lifted by `globalSub`, which scans
positions left to right exactly as `re.sub` does.  The fuel of
`globalSub` starts at the length of the list; every step consumes at
least one character, so the fuel never runs out. -/

def globalSub (m : List Char → Option (List Char × List Char)) :
    Nat → List Char → List Char
  | 0, l => l
  | _ + 1, [] => []
  | fuel + 1, c :: cs =>
    match m (c :: cs) with
    | some (rep, rest) => rep ++ globalSub m fuel rest
    | none => c :: globalSub m fuel cs

/-- Matcher for the anchored pattern: four digits, optional whitespace,
a plus or minus sign, optional whitespace, end of string; replacement
keeps the digits and appends "-present". -/
def yearPlusAt (l : List Char) : Option (List Char × List Char) :=
  match l with
  | d1 :: d2 :: d3 :: d4 :: rest =>
    if isDigitC d1 && isDigitC d2 && isDigitC d3 && isDigitC d4 then
      match rest.dropWhile isWS with
      | s :: r2 =>
        if (s == '+' || s == '-') && r2.dropWhile isWS == [] then
          some (d1 :: d2 :: d3 :: d4 :: ('-' :: ("present").data), [])
        else none
      | [] => none
    else none
  | _ => none

/-- Matcher for: four digits, optional whitespace, "to" or "onwards",
optional whitespace, "present"; replacement keeps the digits and
appends "-present". -/
def yearToPresentAt (l : List Char) : Option (List Char × List Char) :=
  match l with
  | d1 :: d2 :: d3 :: d4 :: rest =>
    if isDigitC d1 && isDigitC d2 && isDigitC d3 && isDigitC d4 then
      let r := rest.dropWhile isWS
      let after :=
        if isPre (("to").data) r then some (r.drop 2)
        else if isPre (("onwards").data) r then some (r.drop 7)
        else none
      match after with
      | some r2 =>
        let r3 := r2.dropWhile isWS
        if isPre (("present").data) r3 then
          some (d1 :: d2 :: d3 :: d4 :: ('-' :: ("present").data), r3.drop 7)
        else none
      | none => none
    else none
  | _ => none

/-- Matcher for: optional whitespace, a dash (hyphen or en-dash),
optional whitespace; replaced by a single hyphen. -/
def dashAt (l : List Char) : Option (List Char × List Char) :=
  match l.dropWhile isWS with
  | c :: cs =>
    if c == '-' || c == '–' then some (['-'], cs.dropWhile isWS) else none
  | [] => none

/-- `normalize_year_range` from utils/date_utils.py. -/
def normalize_year_range (year_str : String) : String :=
  if year_str = "" then ""
  else
    let s := loL (stripL year_str.data)
    let s := globalSub yearPlusAt s.length s
    let s := globalSub yearToPresentAt s.length s
    let s := globalSub dashAt s.length s
    ⟨s⟩

/-- Python `str.replace` (all occurrences). -/
def replaceAll (pat rep : List Char) : Nat → List Char → List Char
  | 0, l => l
  | _ + 1, [] => []
  | fuel + 1, c :: cs =>
    if isPre pat (c :: cs) then rep ++ replaceAll pat rep fuel ((c :: cs).drop pat.length)
    else c :: replaceAll pat rep fuel cs

/-- All non-overlapping four-digit runs, scanned left to right:
regex findall of four digits. -/
def findYears : Nat → List Char → List Nat
  | 0, _ => []
  | _ + 1, [] => []
  | fuel + 1, c :: cs =>
    match c :: cs with
    | d1 :: d2 :: d3 :: d4 :: rest =>
      if isDigitC d1 && isDigitC d2 && isDigitC d3 && isDigitC d4 then
        ((((d1.toNat - 48) * 10 + (d2.toNat - 48)) * 10 + (d3.toNat - 48)) * 10 + (d4.toNat - 48))
          :: findYears fuel rest
      else findYears fuel cs
    | _ => findYears fuel cs

/-- Python `min` of a non-empty list (0 on the empty list, unused). -/
def listMin : List Nat → Nat
  | [] => 0
  | y :: ys => ys.foldl Nat.min y

/-- Python `max` of a non-empty list (0 on the empty list, unused). -/
def listMax : List Nat → Nat
  | [] => 0
  | y :: ys => ys.foldl Nat.max y

/-- The year-number extraction inside `_parse_range`: normalize the
string, replace "present" by the current year, extract all four-digit
numbers. -/
def yearsOf (year : Nat) (s : String) : List Nat :=
  let n := (normalize_year_range s).data
  let n2 := replaceAll (("present").data) (natChars year) n.length n
  findYears n2.length n2

/-- The inner `_parse_range` of `check_year_match`: the minimum and
maximum of the extracted year numbers, or nothing when there are none. -/
def parseRange (year : Nat) (s : String) : Option (Nat × Nat) :=
  match yearsOf year s with
  | [] => none
  | y :: ys => some (listMin (y :: ys), listMax (y :: ys))

/-- `check_year_match` from utils/date_utils.py; `year` stands for
`datetime.now().year`. -/
def check_year_match (year : Nat) (product_year_str catalog_year_str : String) : Bool :=
  if catalog_year_str = "" || product_year_str = "" then false
  else
    match parseRange year product_year_str, parseRange year catalog_year_str with
    | some (ps, pe), some (cs, ce) => decide (ps ≤ ce) && decide (cs ≤ pe)
    | _, _ => false

/-! ## utils/string_utils.py -/

/-- `normalize_ref_no`: remove whitespace and dashes, uppercase. -/
def normalize_ref_no (ref_no : String) : String :=
  if ref_no = "" then ""
  else ⟨upL (ref_no.data.filter (fun c => !(isWS c || c == '-')))⟩

/-! ## Claim C8 (class: code bug)

The comment above the second substitution in `normalize_year_range`
states that "2010 onwards" is to be rewritten to "2010-present", and
the spec says the same; but the regex demands a "present" following
"onwards", so "YYYY onwards" alone passes through unchanged. -/

/-- Claim C8 — on the failing input "2010 onwards" the code returns the
input unchanged instead of the documented "2010-present"; the
neighbouring rewrite families ("YYYY+", "YYYY to present", dash
variants) do work as claimed. -/
theorem C8_normalize_year_range_onwards :
    normalize_year_range ("2010 onwards") = "2010 onwards" ∧
    normalize_year_range ("2010 onwards") ≠ "2010-present" ∧
    normalize_year_range ("2010+") = "2010-present" ∧
    normalize_year_range ("2010 to present") = "2010-present" ∧
    normalize_year_range ("2010 ONWARDS ") = "2010 onwards" ∧
    normalize_year_range ("2010 – 2015") = "2010-2015" := by
  refine ⟨by decide, by decide, by decide, by decide, by decide, by decide⟩

/-! ## Claim C6 (corrected)

`check_year_match` applies `normalize_year_range` before substituting
"present" and extracting four-digit numbers; the claim words the
predicate on the raw strings without normalization, which changes the
outcome on inputs such as "2010+". -/

/-- Overlap predicate exactly as claim C6 words it, on the raw input
strings: substitute "present" with the current year, extract the
four-digit numbers, take (min, max) of each side as the ranges, and
test start1 ≤ end2 and start2 ≤ end1.  It differs from the code in not
applying `normalize_year_range` first. -/
def claimC6Holds (year : Nat) (a b : String) : Bool :=
  let ya := replaceAll (("present").data) (natChars year) a.data.length a.data
  let yb := replaceAll (("present").data) (natChars year) b.data.length b.data
  match findYears ya.length ya, findYears yb.length yb with
  | la@(_ :: _), lb@(_ :: _) =>
    (!(a = "")) && (!(b = "")) &&
      (decide (listMin la ≤ listMax lb) && decide (listMin lb ≤ listMax la))
  | _, _ => false

/-- Claim C6 counterexample — at inputs "2010+" and "2020" (current
year 2026) the code returns true, while the predicate stated by the
claim (no normalization step) is false: the claimed equivalence fails. -/
theorem C6_counterexample :
    check_year_match 2026 ("2010+") ("2020") = true ∧
    claimC6Holds 2026 ("2010+") ("2020") = false := by
  refine ⟨by decide, by decide⟩

/-- Claim C6 (amended) — `check_year_match` returns true iff, after
applying `normalize_year_range` and then substituting "present" with
the current calendar year, both strings contain at least one four-digit
number and, taking (min, max) of the four-digit numbers of each string
as the ranges, start1 ≤ end2 and start2 ≤ end1; empty inputs or inputs
with no extractable four-digit number yield false. -/
theorem C6_check_year_match_amended (year : Nat) (a b : String) :
    check_year_match year a b = true ↔
      (a ≠ "" ∧ b ≠ "" ∧ yearsOf year a ≠ [] ∧ yearsOf year b ≠ [] ∧
       listMin (yearsOf year a) ≤ listMax (yearsOf year b) ∧
       listMin (yearsOf year b) ≤ listMax (yearsOf year a)) := by
  unfold check_year_match parseRange
  rcases eq_or_ne a "" with ha | ha <;> rcases eq_or_ne b "" with hb | hb <;>
    simp [ha, hb]
  cases hya : yearsOf year a <;> cases hyb : yearsOf year b <;>
    simp [hya, hyb, Bool.and_eq_true, decide_eq_true_eq, and_assoc]

/-- Claim C6 witness — the amended equivalence evaluated at the
overlapping and the disjoint scenario pair. -/
theorem C6_witness :
    check_year_match 2026 ("2010-2015") ("2012-2020") = true ∧
    ¬ check_year_match 2026 ("2010-2015") ("2016-2020") = true := by
  constructor
  · exact (C6_check_year_match_amended 2026 ("2010-2015") ("2012-2020")).mpr
      ⟨by decide, by decide, by decide, by decide, by decide, by decide⟩
  · intro h
    have := (C6_check_year_match_amended 2026 ("2010-2015") ("2016-2020")).mp h
    exact absurd this.2.2.2.2.2 (by decide)

/-! ## services/order_processing.py: `_categorize_orders`

Items reaching categorization are the matched, enriched records; only
the order id and the attributed shipping cost take part.  The float
shipping cost is only ever compared with zero, so it is modelled as a
rational. -/

structure CItem where
  orderId : String
  shippingCost : ℚ
deriving DecidableEq, Repr

/-- The dict-get `counts.get(order_id, 1)` over `order_item_counts`,
which the caller builds by counting the matched items per order id. -/
def countsGet (items : List CItem) (oid : String) : Nat :=
  let c := (items.filter (fun x => x.orderId == oid)).length
  if c = 0 then 1 else c

/-- `_categorize_orders`: returns the (expedited, standard) pair,
preserving input order within each class. -/
def categorize_orders (counts : String → Nat) : List CItem → List CItem × List CItem
  | [] => ([], [])
  | i :: rest =>
    let p := categorize_orders counts rest
    if 0 < i.shippingCost ∨ 1 < counts i.orderId then (i :: p.1, p.2)
    else (p.1, i :: p.2)

/-- The categorization pass as invoked by `_process_single_store`:
`order_item_counts` is built from the same batch that is then split. -/
def categorizeBatch (items : List CItem) : List CItem × List CItem :=
  categorize_orders (countsGet items) items

/-! ## services/barcode_service.py -/

structure PItem where
  orderId : String
  storeId : String
  rawSku : String
deriving DecidableEq, Repr

structure BItem where
  orderId : String
  storeId : String
  rawSku : String
  base : Option String
deriving DecidableEq, Repr

structure FItem where
  orderId : String
  storeId : String
  rawSku : String
  base : Option String
  final : Option String
deriving DecidableEq, Repr

/-- Python dict lookup on the store-initials map. -/
def mapGet (m : List (String × String)) (k : String) : Option String :=
  (m.find? (fun p => p.1 == k)).map (fun p => p.2)

/-- Store initials resolution: the map value when present, else the
first two characters of the store id uppercased, else the sentinel. -/
def getInitials (m : List (String × String)) (storeId : String) : String :=
  match mapGet m storeId with
  | some v => v
  | none => if storeId = "" then "XX" else upS (storeId.take 2)

/-- `_generate_base_barcode`: initials, then the counter zero-padded to
three digits, then the run date string (strftime day-month-two-digit-year). -/
def genBase (m : List (String × String)) (storeId : String) (dateStr : String)
    (counter : Nat) : String :=
  getInitials m storeId ++ padS 3 counter ++ dateStr

/-- `assign_base_barcodes` (pass 1): walk the batch in input order,
skipping items with a falsy store id (they get no base barcode and are
flagged), incrementing the row counter only when a barcode is made. -/
def assignBases (m : List (String × String)) (dateStr : String) :
    Nat → List PItem → List BItem
  | _, [] => []
  | c, i :: rest =>
    if i.storeId = "" then
      ⟨i.orderId, i.storeId, i.rawSku, none⟩ :: assignBases m dateStr c rest
    else
      ⟨i.orderId, i.storeId, i.rawSku, some (genBase m i.storeId dateStr c)⟩ ::
        assignBases m dateStr (c + 1) rest

/-- Python string comparison: strict lexicographic order on the code
points. -/
def lexLt : List Char → List Char → Bool
  | _, [] => false
  | [], _ :: _ => true
  | a :: as, b :: bs =>
    if a.toNat < b.toNat then true
    else if b.toNat < a.toNat then false
    else lexLt as bs

/-- Python string ordering of raw SKUs extended with the input
position, which makes the stable `sorted(..., key=raw SKU)` of the
source the unique sort for this total order. -/
def tagLeP (a b : Nat × BItem) : Prop :=
  lexLt a.2.rawSku.data b.2.rawSku.data = true ∨
    (a.2.rawSku = b.2.rawSku ∧ a.1 ≤ b.1)

instance : DecidableRel tagLeP := fun a b =>
  inferInstanceAs (Decidable (lexLt a.2.rawSku.data b.2.rawSku.data = true ∨
    (a.2.rawSku = b.2.rawSku ∧ a.1 ≤ b.1)))

/-- Python rendering of the base barcode inside the final f-string;
a missing base renders as the text "None". -/
def bStr : Option String → String
  | some b => b
  | none => "None"

/-- The final barcode of one (position-tagged) item, as computed by
`assign_final_barcodes`: items without an order id keep their base;
single-item orders keep their base; in a multi-item order the items
are sorted by raw SKU (stable) and receive 1-based two-digit-padded
suffixes appended to their own base barcode. -/
def finalFor (all : List (Nat × BItem)) (t : Nat × BItem) : Option String :=
  if t.2.orderId = "" then t.2.base
  else
    let grp := all.filter (fun x => x.2.orderId == t.2.orderId)
    if grp.length = 1 then t.2.base
    else
      some (bStr t.2.base ++
        padS 2 ((List.insertionSort tagLeP grp).findIdx (fun x => x.1 == t.1) + 1))

/-- `assign_final_barcodes` (pass 2) as an in-place enrichment: every
item of the batch receives its final barcode. -/
def finalizeAll (based : List BItem) : List FItem :=
  based.enum.map (fun t =>
    ⟨t.2.orderId, t.2.storeId, t.2.rawSku, t.2.base, finalFor based.enum t⟩)

/-- Both passes of the barcode engine on a fresh service instance
(counter starts at 1). -/
def runBarcodes (m : List (String × String)) (dateStr : String)
    (items : List PItem) : List FItem :=
  finalizeAll (assignBases m dateStr 1 items)

/-! ## Claim C7 (confirmed): the categorizer is a pure partition -/

theorem categorize_orders_eq (counts : String → Nat) (l : List CItem) :
    categorize_orders counts l =
      (l.filter (fun i => decide (0 < i.shippingCost) || decide (1 < counts i.orderId)),
       l.filter (fun i => !(decide (0 < i.shippingCost) || decide (1 < counts i.orderId)))) := by
  induction l with
  | nil => rfl
  | cons i rest ih =>
    by_cases h1 : 0 < i.shippingCost <;> by_cases h2 : 1 < counts i.orderId <;>
      simp [categorize_orders, ih, List.filter_cons, h1, h2]

theorem countsGet_gt_one (items : List CItem) (oid : String) :
    1 < countsGet items oid ↔
      1 < (items.filter (fun x => x.orderId == oid)).length := by
  unfold countsGet
  dsimp only
  split <;> omega

/-- Claim C7 — categorization is stateless and places an item in the
expedited list iff its shipping cost is positive or its parent order
has more than one matched item in the batch, otherwise in the standard
list; in particular shipping cost 0 with order size 1 gives standard
and shipping cost 0 with order size 2 gives expedited. -/
theorem C7_categorization (items : List CItem) :
    ((categorizeBatch items).1 = items.filter
        (fun i => decide (0 < i.shippingCost) ||
          decide (1 < (items.filter (fun x => x.orderId == i.orderId)).length)) ∧
     (categorizeBatch items).2 = items.filter
        (fun i => !(decide (0 < i.shippingCost) ||
          decide (1 < (items.filter (fun x => x.orderId == i.orderId)).length)))) ∧
    categorizeBatch [⟨("ORD1"), 0⟩] = ([], [⟨("ORD1"), 0⟩]) ∧
    categorizeBatch [⟨("ORD2"), 0⟩, ⟨("ORD2"), 0⟩] =
      ([⟨("ORD2"), 0⟩, ⟨("ORD2"), 0⟩], []) := by
  have hpred : ∀ i : CItem,
      (decide (0 < i.shippingCost) || decide (1 < countsGet items i.orderId)) =
      (decide (0 < i.shippingCost) ||
        decide (1 < (items.filter (fun x => x.orderId == i.orderId)).length)) := by
    intro i
    congr 1
    exact decide_eq_decide.mpr (countsGet_gt_one items i.orderId)
  refine ⟨⟨?_, ?_⟩, by decide, by decide⟩
  · rw [categorizeBatch, categorize_orders_eq]
    exact List.filter_congr (fun a _ => hpred a)
  · rw [categorizeBatch, categorize_orders_eq]
    refine List.filter_congr (fun a _ => ?_)
    rw [hpred a]

/-! ## Barcode engine: structural lemmas -/

/-- Number of items before position `j` that carry a store id: the row
counter advances exactly on those. -/
def storeCountIn (items : List PItem) (j : Nat) : Nat :=
  ((items.take j).filter (fun x => !(x.storeId == ""))).length

theorem assignBases_length (m : List (String × String)) (d : String) :
    ∀ (c : Nat) (items : List PItem), (assignBases m d c items).length = items.length := by
  intro c items
  induction items generalizing c with
  | nil => rfl
  | cons i rest ih =>
    by_cases h : i.storeId = "" <;> simp [assignBases, h, ih]

theorem assignBases_get (m : List (String × String)) (d : String) :
    ∀ (items : List PItem) (c j : Nat) (it : PItem), items[j]? = some it →
      (assignBases m d c items)[j]? = some
        ⟨it.orderId, it.storeId, it.rawSku,
         if it.storeId = "" then none
         else some (genBase m it.storeId d (c + storeCountIn items j))⟩ := by
  intro items
  induction items with
  | nil => intro c j it h; simp at h
  | cons i rest ih =>
    intro c j it h
    cases j with
    | zero =>
      simp only [List.getElem?_cons_zero, Option.some.injEq] at h
      subst h
      by_cases hs : i.storeId = "" <;>
        simp [assignBases, hs, storeCountIn]
    | succ j =>
      simp only [List.getElem?_cons_succ] at h
      by_cases hs : i.storeId = ""
      · have := ih c j it h
        simp only [assignBases, hs, if_true, List.getElem?_cons_succ]
        rw [this]
        have hcount : storeCountIn (i :: rest) (j + 1) = storeCountIn rest j := by
          simp [storeCountIn, List.take_succ_cons, List.filter_cons, hs]
        rw [hcount]
      · have := ih (c + 1) j it h
        simp only [assignBases, hs, if_false, List.getElem?_cons_succ]
        rw [this]
        have hcount : storeCountIn (i :: rest) (j + 1) = storeCountIn rest j + 1 := by
          simp [storeCountIn, List.take_succ_cons, List.filter_cons, hs]
        rw [hcount]
        by_cases hit : it.storeId = ""
        · simp [hit]
        · simp [hit]
          ring_nf

/-! ## Claim C10 (confirmed): missing store id is a soft failure -/

/-- Claim C10 — an item with no store id never aborts barcode
assignment: in pass 1 it is given no base barcode, every input item
(including it) flows through pass 2 into exactly one output record
with its fields intact, and all items that do carry a store id are
assigned base barcodes normally (initials, next counter value, date). -/
theorem C10_missing_store_id (m : List (String × String)) (d : String)
    (items : List PItem) :
    (runBarcodes m d items).length = items.length ∧
    (∀ (j : Nat) (it : PItem), items[j]? = some it → it.storeId = "" →
      ((assignBases m d 1 items)[j]?).map (fun b => b.base) = some none) ∧
    (∀ (j : Nat) (it : PItem), items[j]? = some it → it.storeId ≠ "" →
      ((assignBases m d 1 items)[j]?).map (fun b => b.base) =
        some (some (genBase m it.storeId d (1 + storeCountIn items j)))) ∧
    (∀ (j : Nat) (it : PItem), items[j]? = some it →
      ∃ f : FItem, (runBarcodes m d items)[j]? = some f ∧ f.orderId = it.orderId ∧
        f.storeId = it.storeId ∧ f.rawSku = it.rawSku) := by
  refine ⟨?_, ?_, ?_, ?_⟩
  · simp [runBarcodes, finalizeAll, assignBases_length]
  · intro j it h hs
    rw [assignBases_get m d items 1 j it h]
    simp [hs]
  · intro j it h hs
    rw [assignBases_get m d items 1 j it h]
    simp [hs, Nat.add_comm]
  · intro j it h
    have hb := assignBases_get m d items 1 j it h
    simp only [runBarcodes, finalizeAll]
    rw [List.getElem?_map, List.getElem?_enum, hb]
    exact ⟨_, rfl, rfl, rfl, rfl⟩

/-- Claim C10 witness — a two-item batch whose first item has no store
id: the first item is flagged with no base barcode, the second gets
the first counter value, and both flow through pass 2. -/
theorem C10_witness :
    ((assignBases [] ("010203") 1 [⟨("O1"), (""), ("s")⟩, ⟨("O2"), ("S2"), ("t")⟩])[0]?).map
        (fun b => b.base) = some none ∧
    ((assignBases [] ("010203") 1 [⟨("O1"), (""), ("s")⟩, ⟨("O2"), ("S2"), ("t")⟩])[1]?).map
        (fun b => b.base) = some (some (genBase [] ("S2") ("010203") 1)) ∧
    (runBarcodes [] ("010203") [⟨("O1"), (""), ("s")⟩, ⟨("O2"), ("S2"), ("t")⟩]).length = 2 := by
  have h := C10_missing_store_id [] ("010203")
    [⟨("O1"), (""), ("s")⟩, ⟨("O2"), ("S2"), ("t")⟩]
  refine ⟨h.2.1 0 _ rfl rfl, ?_, h.1⟩
  have := h.2.2.1 1 ⟨("O2"), ("S2"), ("t")⟩ rfl (by decide)
  simpa [storeCountIn] using this

/-! ## Claim C1 (corrected): barcode uniqueness

With an arbitrary store-initials map the claimed batch-wide uniqueness
fails: initials of different lengths let a base barcode of one item
coincide with the suffixed final barcode of another.  The
counterexample uses initials "01" and "", run date 01 Jan 2001, and
eleven items, so that the single-item order of the first item gets
base and final "01" + "001" + "010101", while the tenth item (counter
10, initials "") sits first in a two-item order and gets final
"" + "010" + "010101" + "01" — the same string. -/

def c1CexM : List (String × String) := [("P", "01"), ("Q", "")]

def c1CexItems : List PItem :=
  [⟨"A", "P", "x"⟩, ⟨"C2", "Q", "x"⟩, ⟨"C3", "Q", "x"⟩, ⟨"C4", "Q", "x"⟩,
   ⟨"C5", "Q", "x"⟩, ⟨"C6", "Q", "x"⟩, ⟨"C7", "Q", "x"⟩, ⟨"C8", "Q", "x"⟩,
   ⟨"C9", "Q", "x"⟩, ⟨"B", "Q", "a"⟩, ⟨"B", "Q", "b"⟩]

/-- Claim C1 counterexample — a batch in which every item carries a
store id and an order id, yet after both passes the final barcodes are
not pairwise distinct. -/
theorem C1_counterexample :
    (∀ it ∈ c1CexItems, it.storeId ≠ "" ∧ it.orderId ≠ "") ∧
    ¬ ((runBarcodes c1CexM ("010101") c1CexItems).map (fun f => f.final)).Nodup := by
  refine ⟨by decide, by decide⟩

/-! ## Order lemmas for the SKU comparison -/

theorem lexLt_irrefl : ∀ l, lexLt l l = false := by
  intro l
  induction l with
  | nil => rfl
  | cons a as ih => simp [lexLt, ih]

theorem lexLt_asymm : ∀ l1 l2, lexLt l1 l2 = true → lexLt l2 l1 = false := by
  intro l1
  induction l1 with
  | nil =>
    intro l2 h
    cases l2 with
    | nil => simp [lexLt] at h
    | cons b bs => simp [lexLt]
  | cons a as ih =>
    intro l2 h
    cases l2 with
    | nil => simp [lexLt] at h
    | cons b bs =>
      by_cases hab : a.toNat < b.toNat
      · simp [lexLt, hab, Nat.lt_asymm hab]
      · by_cases hba : b.toNat < a.toNat
        · simp [lexLt, hab, hba] at h
        · simp only [lexLt, if_neg hab, if_neg hba] at h
          simp only [lexLt, if_neg hba, if_neg hab]
          exact ih bs h

theorem lexLt_eq_of_not : ∀ l1 l2, lexLt l1 l2 = false → lexLt l2 l1 = false → l1 = l2 := by
  intro l1
  induction l1 with
  | nil =>
    intro l2 h1 _h2
    cases l2 with
    | nil => rfl
    | cons b bs => simp [lexLt] at h1
  | cons a as ih =>
    intro l2 h1 h2
    cases l2 with
    | nil => simp [lexLt] at h2
    | cons b bs =>
      by_cases hab : a.toNat < b.toNat
      · simp [lexLt, hab] at h1
      · by_cases hba : b.toNat < a.toNat
        · simp [lexLt, hba, hab] at h2
        · have hcc : a = b := by
            apply Char.eq_of_val_eq
            apply UInt32.eq_of_toBitVec_eq
            apply BitVec.eq_of_toNat_eq
            show a.toNat = b.toNat
            omega
          simp only [lexLt, if_neg hab, if_neg hba] at h1
          simp only [lexLt, if_neg hba, if_neg hab] at h2
          rw [hcc, ih bs h1 h2]

theorem lexLt_trans : ∀ l1 l2 l3, lexLt l1 l2 = true → lexLt l2 l3 = true →
    lexLt l1 l3 = true := by
  intro l1
  induction l1 with
  | nil =>
    intro l2 l3 h1 h2
    cases l2 with
    | nil => simp [lexLt] at h1
    | cons b bs =>
      cases l3 with
      | nil => simp [lexLt] at h2
      | cons c cs => simp [lexLt]
  | cons a as ih =>
    intro l2 l3 h1 h2
    cases l2 with
    | nil => simp [lexLt] at h1
    | cons b bs =>
      cases l3 with
      | nil => simp [lexLt] at h2
      | cons c cs =>
        by_cases hba : b.toNat < a.toNat
        · simp [lexLt, Nat.lt_asymm hba, hba] at h1
        · by_cases hcb : c.toNat < b.toNat
          · simp [lexLt, Nat.lt_asymm hcb, hcb] at h2
          · by_cases hac : a.toNat < c.toNat
            · simp [lexLt, hac]
            · have hab : ¬ a.toNat < b.toNat := by omega
              have hbc : ¬ b.toNat < c.toNat := by omega
              have hca : ¬ c.toNat < a.toNat := by omega
              simp only [lexLt, if_neg hab, if_neg hba] at h1
              simp only [lexLt, if_neg hbc, if_neg hcb] at h2
              simp only [lexLt, if_neg hac, if_neg hca]
              exact ih bs cs h1 h2

instance : IsTotal (Nat × BItem) tagLeP := by
  constructor
  intro a b
  by_cases h1 : lexLt a.2.rawSku.data b.2.rawSku.data = true
  · exact Or.inl (Or.inl h1)
  · by_cases h2 : lexLt b.2.rawSku.data a.2.rawSku.data = true
    · exact Or.inr (Or.inl h2)
    · have hd : a.2.rawSku.data = b.2.rawSku.data :=
        lexLt_eq_of_not _ _ (by simpa using h1) (by simpa using h2)
      have hsku : a.2.rawSku = b.2.rawSku := by
        cases hsa : a.2.rawSku
        cases hsb : b.2.rawSku
        simp_all
      rcases Nat.le_total a.1 b.1 with hp | hp
      · exact Or.inl (Or.inr ⟨hsku, hp⟩)
      · exact Or.inr (Or.inr ⟨hsku.symm, hp⟩)

instance : IsTrans (Nat × BItem) tagLeP := by
  constructor
  intro a b c hab hbc
  rcases hab with h1 | ⟨hs1, hp1⟩
  · rcases hbc with h2 | ⟨hs2, hp2⟩
    · exact Or.inl (lexLt_trans _ _ _ h1 h2)
    · exact Or.inl (hs2 ▸ h1)
  · rcases hbc with h2 | ⟨hs2, hp2⟩
    · exact Or.inl (hs1 ▸ h2)
    · exact Or.inr ⟨hs1.trans hs2, hp1.trans hp2⟩

/-! ## Digit and padding lemmas -/

theorem natCharsF_small (fuel k : Nat) (h : k < 10) :
    natCharsF (fuel + 1) k = [digitCh k] := by
  simp [natCharsF, h]

theorem natChars_one (n : Nat) (h : n < 10) : natChars n = [digitCh n] := by
  simp [natChars, natCharsF, h]

theorem natCharsF_eval (fuel : Nat) : ∀ n, n < fuel → natCharsF fuel n = natChars n := by
  induction fuel using Nat.strong_induction_on with
  | _ fuel ih =>
    intro n h
    obtain ⟨f, rfl⟩ : ∃ f, fuel = f + 1 := ⟨fuel - 1, by omega⟩
    by_cases h10 : n < 10
    · rw [natCharsF_small f n h10, natChars_one n h10]
    · have hdiv : n / 10 < n := Nat.div_lt_self (by omega) (by omega)
      rw [natCharsF, if_neg h10, natChars, natCharsF, if_neg h10]
      congr 1
      rw [ih f (by omega) (n / 10) (by omega), ih n (by omega) (n / 10) hdiv]

theorem natChars_two (n : Nat) (h1 : 10 ≤ n) (h2 : n < 100) :
    natChars n = [digitCh (n / 10), digitCh (n % 10)] := by
  rw [natChars]
  obtain ⟨f, hf⟩ : ∃ f, n + 1 = f + 1 := ⟨n, rfl⟩
  rw [hf, natCharsF, if_neg (by omega)]
  rw [natCharsF_eval f (n / 10) (by omega), natChars_one (n / 10) (by omega)]
  rfl

theorem natChars_three (n : Nat) (h1 : 100 ≤ n) (h2 : n < 1000) :
    natChars n = [digitCh (n / 100), digitCh (n / 10 % 10), digitCh (n % 10)] := by
  rw [natChars]
  obtain ⟨f, hf⟩ : ∃ f, n + 1 = f + 1 := ⟨n, rfl⟩
  rw [hf, natCharsF, if_neg (by omega)]
  rw [natCharsF_eval f (n / 10) (by omega),
    natChars_two (n / 10) (by omega) (by omega)]
  have e1 : n / 10 / 10 = n / 100 := by
    rw [Nat.div_div_eq_div_mul]
  have e2 : n / 10 % 10 = n / 10 % 10 := rfl
  rw [e1]
  rfl

theorem padNum3_eq (n : Nat) (h : n < 1000) :
    padNum 3 n = [digitCh (n / 100), digitCh (n / 10 % 10), digitCh (n % 10)] := by
  rcases Nat.lt_or_ge n 10 with h1 | h1
  · rw [padNum, natChars_one n h1]
    have e1 : n / 100 = 0 := by omega
    have e2 : n / 10 % 10 = 0 := by omega
    have e3 : n % 10 = n := by omega
    rw [e1, e2, e3]
    rfl
  · rcases Nat.lt_or_ge n 100 with h2 | h2
    · rw [padNum, natChars_two n h1 h2]
      have e1 : n / 100 = 0 := by omega
      have e2 : n / 10 % 10 = n / 10 := by omega
      rw [e1, e2]
      rfl
    · rw [padNum, natChars_three n h2 h]
      rfl

theorem padNum3_length (n : Nat) (h : n < 1000) : (padNum 3 n).length = 3 := by
  rw [padNum3_eq n h]; rfl

theorem padNum2_eq (n : Nat) (h : n < 100) :
    padNum 2 n = [digitCh (n / 10), digitCh (n % 10)] := by
  rcases Nat.lt_or_ge n 10 with h1 | h1
  · rw [padNum, natChars_one n h1]
    have e1 : n / 10 = 0 := by omega
    have e2 : n % 10 = n := by omega
    rw [e1, e2]
    rfl
  · rw [padNum, natChars_two n h1 h]
    rfl

theorem padNum2_length (n : Nat) (h : n < 100) : (padNum 2 n).length = 2 := by
  rw [padNum2_eq n h]; rfl

theorem digitCh_inj : ∀ a < 10, ∀ b < 10, digitCh a = digitCh b → a = b := by decide

theorem padNum3_inj (n m : Nat) (hn : n < 1000) (hm : m < 1000)
    (h : padNum 3 n = padNum 3 m) : n = m := by
  rw [padNum3_eq n hn, padNum3_eq m hm] at h
  simp only [List.cons.injEq, and_true] at h
  obtain ⟨e1, e2, e3⟩ := h
  have d1 := digitCh_inj _ (by omega) _ (by omega) e1
  have d2 := digitCh_inj _ (by omega) _ (by omega) e2
  have d3 := digitCh_inj _ (by omega) _ (by omega) e3
  omega

/-! ## Base-barcode shape lemmas -/

theorem genBase_data (m : List (String × String)) (sid d : String) (c : Nat) :
    (genBase m sid d c).data = (getInitials m sid).data ++ (padNum 3 c ++ d.data) := by
  simp [genBase, padS]

theorem strLen (s : String) : s.length = s.data.length := rfl

theorem genBase_length (m : List (String × String)) (sid d : String) (c : Nat)
    (hc : c < 1000) :
    (genBase m sid d c).length = (getInitials m sid).length + 3 + d.length := by
  rw [strLen, genBase_data, List.length_append, List.length_append,
    padNum3_length c hc, strLen (getInitials m sid), strLen d]
  omega

theorem genBase_inj (m : List (String × String)) (d : String) (s1 s2 : String)
    (c1 c2 : Nat) (L : Nat)
    (h1 : (getInitials m s1).length = L) (h2 : (getInitials m s2).length = L)
    (hc1 : c1 < 1000) (hc2 : c2 < 1000)
    (heq : genBase m s1 d c1 = genBase m s2 d c2) : c1 = c2 := by
  have hdata := congrArg String.data heq
  rw [genBase_data, genBase_data] at hdata
  have hlen : (getInitials m s1).data.length = (getInitials m s2).data.length := by
    have e1 : (getInitials m s1).data.length = L := h1
    have e2 : (getInitials m s2).data.length = L := h2
    omega
  obtain ⟨-, htail⟩ := List.append_inj hdata hlen
  have hplen : (padNum 3 c1).length = (padNum 3 c2).length := by
    rw [padNum3_length c1 hc1, padNum3_length c2 hc2]
  obtain ⟨hpad, -⟩ := List.append_inj htail hplen
  exact padNum3_inj c1 c2 hc1 hc2 hpad

/-! ## Tagged views of the two barcode passes -/

/-- The position-tagged batch after pass 1, as pass 2 sees it. -/
def tgOf (m : List (String × String)) (d : String) (items : List PItem) :
    List (Nat × BItem) :=
  (assignBases m d 1 items).enum

/-- The order group of one order id, in input order. -/
def grpOf (m : List (String × String)) (d : String) (items : List PItem)
    (oid : String) : List (Nat × BItem) :=
  (tgOf m d items).filter (fun x => x.2.orderId == oid)

/-- The order group sorted by raw SKU (stable via position tags). -/
def srtOf (m : List (String × String)) (d : String) (items : List PItem)
    (oid : String) : List (Nat × BItem) :=
  List.insertionSort tagLeP (grpOf m d items oid)

theorem strExt (s t : String) (h : s.data = t.data) : s = t := by
  cases s; cases t; exact congrArg String.mk h

theorem finalFor_eq (all : List (Nat × BItem)) (t : Nat × BItem) :
    finalFor all t =
      if t.2.orderId = "" then t.2.base
      else if (all.filter (fun x => x.2.orderId == t.2.orderId)).length = 1 then t.2.base
      else
        some (bStr t.2.base ++
          padS 2 ((List.insertionSort tagLeP
            (all.filter (fun x => x.2.orderId == t.2.orderId))).findIdx
              (fun x => x.1 == t.1) + 1)) := rfl

theorem runBarcodes_eq (m : List (String × String)) (d : String) (items : List PItem) :
    runBarcodes m d items = (tgOf m d items).map (fun t =>
      (⟨t.2.orderId, t.2.storeId, t.2.rawSku, t.2.base,
        finalFor (tgOf m d items) t⟩ : FItem)) := rfl

theorem tgOf_length (m : List (String × String)) (d : String) (items : List PItem) :
    (tgOf m d items).length = items.length := by
  simp [tgOf, assignBases_length]

theorem storeCountIn_all (items : List PItem)
    (h : ∀ it ∈ items, it.storeId ≠ "") (j : Nat) (hj : j ≤ items.length) :
    storeCountIn items j = j := by
  unfold storeCountIn
  rw [List.filter_eq_self.mpr, List.length_take]
  · omega
  · intro x hx
    have hxi : x ∈ items := List.mem_of_mem_take hx
    simp [h x hxi]

theorem tgOf_get (m : List (String × String)) (d : String) (items : List PItem)
    (j : Nat) (it : PItem) (h : items[j]? = some it) :
    (tgOf m d items)[j]? = some (j,
      ⟨it.orderId, it.storeId, it.rawSku,
       if it.storeId = "" then none
       else some (genBase m it.storeId d (1 + storeCountIn items j))⟩) := by
  rw [tgOf, List.getElem?_enum, assignBases_get m d items 1 j it h]
  rfl

theorem tgOf_self_get (m : List (String × String)) (d : String) (items : List PItem)
    (t : Nat × BItem) (ht : t ∈ tgOf m d items) :
    (tgOf m d items)[t.1]? = some t := by
  obtain ⟨p, b⟩ := t
  have hb : (assignBases m d 1 items)[p]? = some b := by
    rw [← List.mk_mem_enum_iff_getElem?]
    exact ht
  rw [tgOf, List.getElem?_enum, hb]
  rfl

theorem tgOf_spec (m : List (String × String)) (d : String) (items : List PItem)
    (t : Nat × BItem) (ht : t ∈ tgOf m d items) :
    ∃ it : PItem, items[t.1]? = some it ∧ it ∈ items ∧
      t.2 = ⟨it.orderId, it.storeId, it.rawSku,
        if it.storeId = "" then none
        else some (genBase m it.storeId d (1 + storeCountIn items t.1))⟩ := by
  obtain ⟨p, b⟩ := t
  have hb : (assignBases m d 1 items)[p]? = some b :=
    List.mk_mem_enum_iff_getElem?.mp ht
  have hlt : p < items.length := by
    have := (List.getElem?_eq_some_iff.mp hb).1
    rwa [assignBases_length] at this
  have hit : items[p]? = some (items.get ⟨p, hlt⟩) := by
    rw [List.getElem?_eq_getElem hlt]
    rfl
  refine ⟨items.get ⟨p, hlt⟩, hit, List.get_mem items _ _, ?_⟩
  have h1 := tgOf_get m d items p _ hit
  have h2 := tgOf_self_get m d items (p, b) ht
  rw [h1] at h2
  exact (congrArg Prod.snd (Option.some.inj h2)).symm

theorem enumFrom_filter_len (p : BItem → Bool) :
    ∀ (l : List BItem) (k : Nat),
      ((List.enumFrom k l).filter (fun x => p x.2)).length = (l.filter p).length := by
  intro l
  induction l with
  | nil => intro k; rfl
  | cons b rest ih =>
    intro k
    by_cases hp : p b <;> simp [List.enumFrom, List.filter_cons, hp, ih (k + 1)]

theorem assignBases_filter_oid_len (m : List (String × String)) (d : String)
    (oid : String) :
    ∀ (items : List PItem) (c : Nat),
      ((assignBases m d c items).filter (fun b => b.orderId == oid)).length =
        (items.filter (fun x => x.orderId == oid)).length := by
  intro items
  induction items with
  | nil => intro c; rfl
  | cons i rest ih =>
    intro c
    by_cases hs : i.storeId = "" <;>
      by_cases ho : i.orderId == oid <;>
        simp [assignBases, hs, List.filter_cons, ho, ih]

theorem grpOf_length (m : List (String × String)) (d : String) (items : List PItem)
    (oid : String) :
    (grpOf m d items oid).length = (items.filter (fun x => x.orderId == oid)).length := by
  rw [grpOf, tgOf, List.enum]
  rw [enumFrom_filter_len (fun b => b.orderId == oid) (assignBases m d 1 items) 0]
  exact assignBases_filter_oid_len m d oid items 1

theorem grpOf_tags_nodup (m : List (String × String)) (d : String)
    (items : List PItem) (oid : String) :
    ((grpOf m d items oid).map Prod.fst).Nodup := by
  have hsub : List.Sublist (grpOf m d items oid) (tgOf m d items) :=
    List.filter_sublist _
  have hmap := hsub.map Prod.fst
  have : ((tgOf m d items).map Prod.fst).Nodup := by
    rw [tgOf, List.enum_map_fst]
    exact List.nodup_range _
  exact this.sublist hmap

theorem srtOf_perm (m : List (String × String)) (d : String) (items : List PItem)
    (oid : String) : (srtOf m d items oid).Perm (grpOf m d items oid) :=
  List.perm_insertionSort tagLeP (grpOf m d items oid)

theorem srtOf_tags_nodup (m : List (String × String)) (d : String)
    (items : List PItem) (oid : String) :
    ((srtOf m d items oid).map Prod.fst).Nodup := by
  have hperm := (srtOf_perm m d items oid).map Prod.fst
  exact hperm.nodup_iff.mpr (grpOf_tags_nodup m d items oid)

theorem findIdx_tag (l : List (Nat × BItem)) (hnd : (l.map Prod.fst).Nodup) :
    ∀ (j : Nat) (hj : j < l.length),
      l.findIdx (fun x => x.1 == (l.get ⟨j, hj⟩).1) = j := by
  induction l with
  | nil => intro j hj; simp at hj
  | cons u rest ih =>
    intro j hj
    cases j with
    | zero => simp [List.findIdx_cons]
    | succ j =>
      have hju : j < rest.length := by simpa using hj
      have hnd2 : (rest.map Prod.fst).Nodup := by
        simp only [List.map_cons, List.nodup_cons] at hnd
        exact hnd.2
      have hnotin : u.1 ∉ rest.map Prod.fst := by
        simp only [List.map_cons, List.nodup_cons] at hnd
        exact hnd.1
      have hget : ((u :: rest).get ⟨j + 1, hj⟩) = rest.get ⟨j, hju⟩ := rfl
      rw [hget, List.findIdx_cons]
      have hne : (u.1 == (rest.get ⟨j, hju⟩).1) = false := by
        have hmem : (rest.get ⟨j, hju⟩).1 ∈ rest.map Prod.fst :=
          List.mem_map_of_mem Prod.fst (rest.get_mem _ _)
        simp only [beq_eq_false_iff_ne, ne_eq]
        intro hcontra
        exact hnotin (hcontra ▸ hmem)
      rw [hne]
      simp only [cond_false]
      rw [ih hnd2 j hju]

theorem mem_grpOf_self (m : List (String × String)) (d : String) (items : List PItem)
    (t : Nat × BItem) (ht : t ∈ tgOf m d items) :
    t ∈ grpOf m d items t.2.orderId := by
  rw [grpOf, List.mem_filter]
  exact ⟨ht, by simp⟩

theorem grpOf_mem (m : List (String × String)) (d : String) (items : List PItem)
    (oid : String) (u : Nat × BItem) (hu : u ∈ grpOf m d items oid) :
    u ∈ tgOf m d items ∧ u.2.orderId = oid := by
  rw [grpOf, List.mem_filter] at hu
  exact ⟨hu.1, by simpa using hu.2⟩

theorem tgOf_tag_inj (m : List (String × String)) (d : String) (items : List PItem)
    (t1 t2 : Nat × BItem) (h1 : t1 ∈ tgOf m d items) (h2 : t2 ∈ tgOf m d items)
    (he : t1.1 = t2.1) : t1 = t2 := by
  have g1 := tgOf_self_get m d items t1 h1
  have g2 := tgOf_self_get m d items t2 h2
  rw [he] at g1
  rw [g1] at g2
  exact Option.some.inj g2

theorem finalFor_single_val (m : List (String × String)) (d : String)
    (items : List PItem) (t : Nat × BItem)
    (hg : (grpOf m d items t.2.orderId).length = 1) :
    finalFor (tgOf m d items) t = t.2.base := by
  rw [finalFor_eq]
  by_cases ho : t.2.orderId = ""
  · simp [ho]
  · have hg2 : ((tgOf m d items).filter (fun x => x.2.orderId == t.2.orderId)).length = 1 := hg
    simp [ho, hg2]

theorem finalFor_multi_val (m : List (String × String)) (d : String)
    (items : List PItem) (t : Nat × BItem)
    (ho : t.2.orderId ≠ "")
    (hg : 1 < (grpOf m d items t.2.orderId).length) :
    finalFor (tgOf m d items) t =
      some (bStr t.2.base ++ padS 2
        ((srtOf m d items t.2.orderId).findIdx (fun x => x.1 == t.1) + 1)) := by
  rw [finalFor_eq]
  have hg1 : 1 < ((tgOf m d items).filter (fun x => x.2.orderId == t.2.orderId)).length := hg
  have hne : ¬ ((tgOf m d items).filter (fun x => x.2.orderId == t.2.orderId)).length = 1 := by
    omega
  simp only [if_neg ho, if_neg hne]
  rfl

theorem srtOf_findIdx_lt (m : List (String × String)) (d : String) (items : List PItem)
    (oid : String) (t : Nat × BItem) (ht : t ∈ grpOf m d items oid) :
    (srtOf m d items oid).findIdx (fun x => x.1 == t.1) < (srtOf m d items oid).length := by
  apply List.findIdx_lt_length_of_exists
  exact ⟨t, (srtOf_perm m d items oid).mem_iff.mpr ht, by simp⟩

/-- All the per-item facts that follow from the hypothesis package of the
amended claim C1. -/
theorem tgOf_pack (m : List (String × String)) (d : String) (L : Nat)
    (items : List PItem)
    (h1 : ∀ it ∈ items, it.storeId ≠ "" ∧ it.orderId ≠ "")
    (h2 : ∀ it ∈ items, (getInitials m it.storeId).length = L)
    (h4 : ∀ it ∈ items, (items.filter (fun x => x.orderId == it.orderId)).length ≤ 99)
    (t : Nat × BItem) (ht : t ∈ tgOf m d items) :
    t.2.base = some (genBase m t.2.storeId d (1 + t.1)) ∧
    t.2.orderId ≠ "" ∧
    (getInitials m t.2.storeId).length = L ∧
    t.1 < items.length ∧
    (grpOf m d items t.2.orderId).length ≤ 99 := by
  obtain ⟨it, hit, hmem, hspec⟩ := tgOf_spec m d items t ht
  have hlt : t.1 < items.length := (List.getElem?_eq_some_iff.mp hit).1
  have hsid := (h1 it hmem).1
  have hcount := storeCountIn_all items (fun x hx => (h1 x hx).1) t.1 (le_of_lt hlt)
  refine ⟨?_, ?_, ?_, hlt, ?_⟩
  · rw [hspec]
    simp [hsid, hcount]
  · rw [hspec]
    exact (h1 it hmem).2
  · rw [hspec]
    exact h2 it hmem
  · rw [grpOf_length]
    have hoid : t.2.orderId = it.orderId := by rw [hspec]
    rw [hoid]
    exact h4 it hmem

theorem padS2_length (k : Nat) (h : k < 100) : (padS 2 k).length = 2 := by
  rw [strLen]
  exact padNum2_length k h

/-- Uniqueness core: under uniform initials length, a batch of at most
999 items with store and order ids everywhere, and order groups of at
most 99 items, all final barcodes are pairwise distinct. -/
theorem barcode_final_nodup (m : List (String × String)) (d : String) (L : Nat)
    (items : List PItem)
    (h1 : ∀ it ∈ items, it.storeId ≠ "" ∧ it.orderId ≠ "")
    (h2 : ∀ it ∈ items, (getInitials m it.storeId).length = L)
    (h3 : items.length ≤ 999)
    (h4 : ∀ it ∈ items, (items.filter (fun x => x.orderId == it.orderId)).length ≤ 99) :
    ((runBarcodes m d items).map (fun f => f.final)).Nodup := by
  rw [runBarcodes_eq, List.map_map]
  have hfun : ((fun f : FItem => f.final) ∘ fun t : Nat × BItem =>
      (⟨t.2.orderId, t.2.storeId, t.2.rawSku, t.2.base,
        finalFor (tgOf m d items) t⟩ : FItem)) =
      fun t => finalFor (tgOf m d items) t := rfl
  rw [hfun]
  have hnd : (tgOf m d items).Nodup := by
    apply List.Nodup.of_map Prod.fst
    rw [tgOf, List.enum_map_fst]
    exact List.nodup_range _
  refine List.Nodup.map_on ?_ hnd
  intro t1 m1 t2 m2 heq
  obtain ⟨hb1, ho1, hL1, hlt1, hk1⟩ := tgOf_pack m d L items h1 h2 h4 t1 m1
  obtain ⟨hb2, ho2, hL2, hlt2, hk2⟩ := tgOf_pack m d L items h1 h2 h4 t2 m2
  have hc1 : 1 + t1.1 < 1000 := by omega
  have hc2 : 1 + t2.1 < 1000 := by omega
  have hp1 : 0 < (grpOf m d items t1.2.orderId).length :=
    List.length_pos.mpr (List.ne_nil_of_mem (mem_grpOf_self m d items t1 m1))
  have hp2 : 0 < (grpOf m d items t2.2.orderId).length :=
    List.length_pos.mpr (List.ne_nil_of_mem (mem_grpOf_self m d items t2 m2))
  -- final barcode values in the two possible shapes
  have hglen1 := genBase_length m t1.2.storeId d (1 + t1.1) hc1
  have hglen2 := genBase_length m t2.2.storeId d (1 + t2.1) hc2
  rcases Nat.lt_or_ge 1 (grpOf m d items t1.2.orderId).length with hm1 | hs1 <;>
    rcases Nat.lt_or_ge 1 (grpOf m d items t2.2.orderId).length with hm2 | hs2
  · -- multi / multi
    rw [finalFor_multi_val m d items t1 ho1 hm1,
      finalFor_multi_val m d items t2 ho2 hm2, hb1, hb2] at heq
    have hstr := Option.some.inj heq
    have hdata := congrArg String.data hstr
    have hidx1 : (srtOf m d items t1.2.orderId).findIdx (fun x => x.1 == t1.1) <
        (grpOf m d items t1.2.orderId).length := by
      have := srtOf_findIdx_lt m d items t1.2.orderId t1 (mem_grpOf_self m d items t1 m1)
      rwa [(srtOf_perm m d items t1.2.orderId).length_eq] at this
    have hidx2 : (srtOf m d items t2.2.orderId).findIdx (fun x => x.1 == t2.1) <
        (grpOf m d items t2.2.orderId).length := by
      have := srtOf_findIdx_lt m d items t2.2.orderId t2 (mem_grpOf_self m d items t2 m2)
      rwa [(srtOf_perm m d items t2.2.orderId).length_eq] at this
    have e1 : (bStr (some (genBase m t1.2.storeId d (1 + t1.1))) ++ padS 2 _).data =
        (genBase m t1.2.storeId d (1 + t1.1)).data ++ (padS 2
          ((srtOf m d items t1.2.orderId).findIdx (fun x => x.1 == t1.1) + 1)).data := rfl
    have e2 : (bStr (some (genBase m t2.2.storeId d (1 + t2.1))) ++ padS 2 _).data =
        (genBase m t2.2.storeId d (1 + t2.1)).data ++ (padS 2
          ((srtOf m d items t2.2.orderId).findIdx (fun x => x.1 == t2.1) + 1)).data := rfl
    rw [e1, e2] at hdata
    have hlen : (genBase m t1.2.storeId d (1 + t1.1)).data.length =
        (genBase m t2.2.storeId d (1 + t2.1)).data.length := by
      rw [← strLen, ← strLen, hglen1, hglen2, hL1, hL2]
    obtain ⟨hg, -⟩ := List.append_inj hdata hlen
    have hgs := strExt _ _ hg
    have := genBase_inj m d t1.2.storeId t2.2.storeId _ _ L hL1 hL2 hc1 hc2 hgs
    exact tgOf_tag_inj m d items t1 t2 m1 m2 (by omega)
  · -- multi / single
    have hk2' : (grpOf m d items t2.2.orderId).length = 1 := by omega
    rw [finalFor_multi_val m d items t1 ho1 hm1,
      finalFor_single_val m d items t2 hk2', hb1, hb2] at heq
    have hstr := Option.some.inj heq
    have hlen := congrArg String.length hstr
    have hidx1 : (srtOf m d items t1.2.orderId).findIdx (fun x => x.1 == t1.1) <
        (grpOf m d items t1.2.orderId).length := by
      have := srtOf_findIdx_lt m d items t1.2.orderId t1 (mem_grpOf_self m d items t1 m1)
      rwa [(srtOf_perm m d items t1.2.orderId).length_eq] at this
    have hfl : (bStr (some (genBase m t1.2.storeId d (1 + t1.1))) ++ padS 2
        ((srtOf m d items t1.2.orderId).findIdx (fun x => x.1 == t1.1) + 1)).length =
        (genBase m t1.2.storeId d (1 + t1.1)).length + 2 := by
      rw [strLen]
      have : (bStr (some (genBase m t1.2.storeId d (1 + t1.1))) ++ padS 2
          ((srtOf m d items t1.2.orderId).findIdx (fun x => x.1 == t1.1) + 1)).data =
          (genBase m t1.2.storeId d (1 + t1.1)).data ++ (padS 2
            ((srtOf m d items t1.2.orderId).findIdx (fun x => x.1 == t1.1) + 1)).data := rfl
      rw [this, List.length_append, ← strLen, ← strLen,
        padS2_length _ (by omega)]
    rw [hfl, hglen1, hglen2, hL1, hL2] at hlen
    omega
  · -- single / multi
    have hk1' : (grpOf m d items t1.2.orderId).length = 1 := by omega
    rw [finalFor_single_val m d items t1 hk1',
      finalFor_multi_val m d items t2 ho2 hm2, hb1, hb2] at heq
    have hstr := Option.some.inj heq
    have hlen := congrArg String.length hstr
    have hidx2 : (srtOf m d items t2.2.orderId).findIdx (fun x => x.1 == t2.1) <
        (grpOf m d items t2.2.orderId).length := by
      have := srtOf_findIdx_lt m d items t2.2.orderId t2 (mem_grpOf_self m d items t2 m2)
      rwa [(srtOf_perm m d items t2.2.orderId).length_eq] at this
    have hfl : (bStr (some (genBase m t2.2.storeId d (1 + t2.1))) ++ padS 2
        ((srtOf m d items t2.2.orderId).findIdx (fun x => x.1 == t2.1) + 1)).length =
        (genBase m t2.2.storeId d (1 + t2.1)).length + 2 := by
      rw [strLen]
      have : (bStr (some (genBase m t2.2.storeId d (1 + t2.1))) ++ padS 2
          ((srtOf m d items t2.2.orderId).findIdx (fun x => x.1 == t2.1) + 1)).data =
          (genBase m t2.2.storeId d (1 + t2.1)).data ++ (padS 2
            ((srtOf m d items t2.2.orderId).findIdx (fun x => x.1 == t2.1) + 1)).data := rfl
      rw [this, List.length_append, ← strLen, ← strLen,
        padS2_length _ (by omega)]
    rw [hfl, hglen1, hglen2, hL1, hL2] at hlen
    omega
  · -- single / single
    have hk1' : (grpOf m d items t1.2.orderId).length = 1 := by omega
    have hk2' : (grpOf m d items t2.2.orderId).length = 1 := by omega
    rw [finalFor_single_val m d items t1 hk1',
      finalFor_single_val m d items t2 hk2', hb1, hb2] at heq
    have hgs := Option.some.inj heq
    have := genBase_inj m d t1.2.storeId t2.2.storeId _ _ L hL1 hL2 hc1 hc2 hgs
    exact tgOf_tag_inj m d items t1 t2 m1 m2 (by omega)

/-- Single-item orders keep their base barcode as their final barcode
(this needs no side conditions at all). -/
theorem barcode_final_single (m : List (String × String)) (d : String)
    (items : List PItem) :
    ∀ f ∈ runBarcodes m d items,
      ((runBarcodes m d items).filter (fun x => x.orderId == f.orderId)).length = 1 →
      f.final = f.base := by
  intro f hf hlen
  rw [runBarcodes_eq] at hf
  obtain ⟨t, htm, rfl⟩ := List.mem_map.mp hf
  show finalFor (tgOf m d items) t = t.2.base
  apply finalFor_single_val
  have htrans : ((runBarcodes m d items).filter
      (fun x => x.orderId == t.2.orderId)).length =
      (grpOf m d items t.2.orderId).length := by
    rw [runBarcodes_eq, List.filter_map, List.length_map]
    rfl
  rw [← htrans]
  exact hlen

/-- Multi-item orders: the sorted group is a permutation of the group,
its raw SKUs ascend, and the item at sorted position j receives its own
base barcode with the two-digit suffix of j+1 appended. -/
theorem barcode_final_multi (m : List (String × String)) (d : String)
    (items : List PItem)
    (h1 : ∀ it ∈ items, it.storeId ≠ "" ∧ it.orderId ≠ "") :
    ∀ t ∈ tgOf m d items, 1 < (grpOf m d items t.2.orderId).length →
      (srtOf m d items t.2.orderId).Perm (grpOf m d items t.2.orderId) ∧
      List.Pairwise (fun a b : Nat × BItem =>
        lexLt b.2.rawSku.data a.2.rawSku.data = false) (srtOf m d items t.2.orderId) ∧
      (∀ (j : Nat) (hj : j < (srtOf m d items t.2.orderId).length),
        ((runBarcodes m d items)[((srtOf m d items t.2.orderId).get ⟨j, hj⟩).1]?).map
            (fun f => f.final) =
          some (some (bStr ((srtOf m d items t.2.orderId).get ⟨j, hj⟩).2.base ++
            padS 2 (j + 1)))) := by
  intro t htm hmulti
  refine ⟨srtOf_perm m d items t.2.orderId, ?_, ?_⟩
  · have hsorted : List.Sorted tagLeP (srtOf m d items t.2.orderId) :=
      List.sorted_insertionSort tagLeP (grpOf m d items t.2.orderId)
    refine hsorted.imp ?_
    intro a b hab
    rcases hab with hlt | ⟨hsk, -⟩
    · exact lexLt_asymm _ _ hlt
    · rw [hsk]
      exact lexLt_irrefl _
  · intro j hj
    have hu := List.get_mem (srtOf m d items t.2.orderId) j hj
    have humem := (srtOf_perm m d items t.2.orderId).mem_iff.mp hu
    obtain ⟨hutg, huoid⟩ := grpOf_mem m d items t.2.orderId _ humem
    -- the item of sorted position j, with its own group equal to this group
    set u := (srtOf m d items t.2.orderId).get ⟨j, hj⟩ with hudef
    obtain ⟨it, hit, hitmem, -⟩ := tgOf_spec m d items u hutg
    have huoid' : u.2.orderId ≠ "" := by
      rw [huoid]
      obtain ⟨it2, -, hit2mem, hspec2⟩ := tgOf_spec m d items t htm
      rw [hspec2]
      exact (h1 it2 hit2mem).2
    have hgrp_eq : grpOf m d items u.2.orderId = grpOf m d items t.2.orderId := by
      rw [huoid]
    have hmulti' : 1 < (grpOf m d items u.2.orderId).length := by
      rw [hgrp_eq]
      exact hmulti
    have hval := finalFor_multi_val m d items u huoid' hmulti'
    have hsrt_eq : srtOf m d items u.2.orderId = srtOf m d items t.2.orderId := by
      rw [srtOf, srtOf, hgrp_eq]
    rw [hsrt_eq] at hval
    have hfind : (srtOf m d items t.2.orderId).findIdx (fun x => x.1 == u.1) = j := by
      have := findIdx_tag (srtOf m d items t.2.orderId)
        (srtOf_tags_nodup m d items t.2.orderId) j hj
      rw [← hudef] at this
      exact this
    rw [hfind] at hval
    have hidx := tgOf_self_get m d items u hutg
    rw [runBarcodes_eq, List.getElem?_map, hidx]
    show some (finalFor (tgOf m d items) u) = _
    rw [hval]

/-! ## Claim C1 (amended) -/

/-- Claim C1 (amended) — for batches in which every item carries a
store id and an order id, and additionally (as the counterexample
forces) all resolved store initials share one length, the batch holds
at most 999 items, and every order holds at most 99 items: the final
barcodes are pairwise distinct; every single-item order keeps its base
barcode as final; and in every multi-item order the items, sorted by
raw SKU (stable), receive the two-digit suffixes of 1..K appended to
their own base barcodes in that ascending SKU order. -/
theorem C1_barcode_uniqueness_amended (m : List (String × String)) (d : String)
    (L : Nat) (items : List PItem)
    (h1 : ∀ it ∈ items, it.storeId ≠ "" ∧ it.orderId ≠ "")
    (h2 : ∀ it ∈ items, (getInitials m it.storeId).length = L)
    (h3 : items.length ≤ 999)
    (h4 : ∀ it ∈ items, (items.filter (fun x => x.orderId == it.orderId)).length ≤ 99) :
    ((runBarcodes m d items).map (fun f => f.final)).Nodup ∧
    (∀ f ∈ runBarcodes m d items,
      ((runBarcodes m d items).filter (fun x => x.orderId == f.orderId)).length = 1 →
      f.final = f.base) ∧
    (∀ t ∈ tgOf m d items, 1 < (grpOf m d items t.2.orderId).length →
      (srtOf m d items t.2.orderId).Perm (grpOf m d items t.2.orderId) ∧
      List.Pairwise (fun a b : Nat × BItem =>
        lexLt b.2.rawSku.data a.2.rawSku.data = false) (srtOf m d items t.2.orderId) ∧
      (∀ (j : Nat) (hj : j < (srtOf m d items t.2.orderId).length),
        ((runBarcodes m d items)[((srtOf m d items t.2.orderId).get ⟨j, hj⟩).1]?).map
            (fun f => f.final) =
          some (some (bStr ((srtOf m d items t.2.orderId).get ⟨j, hj⟩).2.base ++
            padS 2 (j + 1))))) :=
  ⟨barcode_final_nodup m d L items h1 h2 h3 h4,
   barcode_final_single m d items,
   barcode_final_multi m d items h1⟩

/-- Claim C1 witness — the amended theorem applied to a concrete batch
of three items over one store with two-letter initials: one two-item
order "O1" (SKUs "b" then "a") and one single-item order "O2". -/
theorem C1_witness :
    ((runBarcodes [("S", "AB")] ("010203")
        [⟨"O1", "S", "b"⟩, ⟨"O1", "S", "a"⟩, ⟨"O2", "S", "z"⟩]).map
      (fun f => f.final)).Nodup ∧
    (∀ f ∈ runBarcodes [("S", "AB")] ("010203")
        [⟨"O1", "S", "b"⟩, ⟨"O1", "S", "a"⟩, ⟨"O2", "S", "z"⟩],
      ((runBarcodes [("S", "AB")] ("010203")
          [⟨"O1", "S", "b"⟩, ⟨"O1", "S", "a"⟩, ⟨"O2", "S", "z"⟩]).filter
        (fun x => x.orderId == f.orderId)).length = 1 →
      f.final = f.base) := by
  have h := C1_barcode_uniqueness_amended [("S", "AB")] ("010203") 2
    [⟨"O1", "S", "b"⟩, ⟨"O1", "S", "a"⟩, ⟨"O2", "S", "z"⟩]
    (by decide) (by decide) (by decide) (by decide)
  exact ⟨h.1, h.2.1⟩

/-! ## services/sku_id_extractor.py

Each regex case of the prioritized cascade is modelled by a dedicated
matcher over character lists.  All the anchored patterns are
deterministic after accounting for greedy classes; the two patterns
with genuine backtracking (the HOLES alternation behind a star or plus)
enumerate the quantifier lengths from longest to shortest exactly as
the regex engine does.  Matchers return the identifier exactly as the
code does (already uppercased where the code uppercases). -/

/-- One letter followed by one or more digits (a regex letter-digits
group); returns the group and the rest. -/
def letterDigits1 (s : List Char) : Option (List Char × List Char) :=
  match s with
  | c :: rest =>
    if isAlphaC c then
      match many1 isDigitC rest with
      | some (ds, r) => some (c :: ds, r)
      | none => none
    else none
  | [] => none

/-- Full anchored match of one letter then one or more digits. -/
def fullLetterDigits : List Char → Bool
  | c :: d :: ds => isAlphaC c && isDigitC d && ds.all isDigitC
  | _ => false

/-- Is the head of the rest not a word character (regex negative
lookahead for a word character, or a word boundary after a word
character)? -/
def notWordHead : List Char → Bool
  | x :: _ => !isWordC x
  | [] => true

/-- Is the head of the rest not alphanumeric (the negative lookahead of
the short-suffix pattern)? -/
def notAlnumHead : List Char → Bool
  | x :: _ => !isAlnumC x
  | [] => true

/-- CASE 1: an anchored V-code, the letter V then digits. -/
def case1V (s : List Char) : Option (List Char) :=
  match s with
  | c :: rest =>
    if ciEqC c 'V' then
      match many1 isDigitC rest with
      | some (ds, _) => some (upL (c :: ds))
      | none => none
    else none
  | [] => none

/-- CASE 2: letter, dash, VAW, digits, spaces, digits, spaces, then a
letter-digits group. -/
def case2VAW (s : List Char) : Option (List Char) :=
  match s with
  | c0 :: c1 :: rest =>
    if isAlphaC c0 && c1 == '-' then
      (litCI (("VAW").data) rest).bind (fun r1 =>
      (many1 isDigitC r1.2).bind (fun r2 =>
      (many1 isWS r2.2).bind (fun r3 =>
      (many1 isDigitC r3.2).bind (fun r4 =>
      (many1 isWS r4.2).bind (fun r5 =>
      (letterDigits1 r5.2).map (fun g => upL g.1))))))
    else none
  | _ => none

/-- CASE 3: letter, digits, then the literal BNH. -/
def case3ABNH (s : List Char) : Option (List Char) :=
  (letterDigits1 s).bind (fun g =>
    (litCI (("BNH").data) g.2).map (fun b => upL (g.1 ++ b.1)))

/-- The HOLES or NOHOLES literal preceded by exactly `k` alphanumeric
filler characters of `r2`. -/
def holesTailAt (r2 : List Char) (k : Nat) : Option (List Char) :=
  match litCI (("HOLES").data) (r2.drop k) with
  | some (h, _) => some (r2.take k ++ h)
  | none =>
    match litCI (("NOHOLES").data) (r2.drop k) with
    | some (h, _) => some (r2.take k ++ h)
    | none => none

/-- Backtracking of the starred alphanumeric class before the HOLES
alternation, from longest filler to empty. -/
def holesTail (r2 : List Char) : Nat → Option (List Char)
  | 0 => holesTailAt r2 0
  | k + 1 =>
    match holesTailAt r2 (k + 1) with
    | some g => some g
    | none => holesTail r2 k

/-- CASE 4: anchored alphanumerics, a dash, alphanumerics, then HOLES
or NOHOLES. -/
def case4Holes (s : List Char) : Option (List Char) :=
  (many1 isAlnumC s).bind (fun a =>
    match a.2 with
    | c :: r2 =>
      if c == '-' then
        (holesTail r2 (r2.takeWhile isAlnumC).length).map
          (fun t => upL (a.1 ++ c :: t))
      else none
    | [] => none)

/-- The plus-quantified alphanumerics before the HOLES alternation,
backtracking from the longest run down to length one. -/
def holesPlusBack (s : List Char) : Nat → Option (List Char)
  | 0 => none
  | j + 1 =>
    match holesTailAt s (j + 1) with
    | some g => some g
    | none => holesPlusBack s j

/-- CASE 5: unanchored search for alphanumerics followed by HOLES or
NOHOLES, leftmost position first. -/
def case5HolesSearch : List Char → Option (List Char)
  | [] => none
  | c :: cs =>
    match holesPlusBack (c :: cs) ((c :: cs).takeWhile isAlnumC).length with
    | some g => some (upL g)
    | none => case5HolesSearch cs

/-- The last whitespace-separated part, when there are at least
`minParts` parts and it is a letter-digits code (shared by the VELOUR,
G-VAW and VAW-digits cases). -/
def lastPartLD (s : List Char) (minParts : Nat) : Option (List Char) :=
  let parts := splitWs s
  if minParts ≤ parts.length then
    match parts.getLast? with
    | some lp =>
      let lpU := upL (stripL lp)
      if fullLetterDigits lpU then some lpU else none
    | none => none
  else none

/-- CASE 6: a VELOUR-led SKU whose last of at least three parts is a
letter-digits code. -/
def caseVelour (s : List Char) : Option (List Char) :=
  if isPre (("VELOUR").data) (upL s) then lastPartLD s 3 else none

/-- CASE 7: ZZ, digits, and an optional trailing letter. -/
def case7ZZ (s : List Char) : Option (List Char) :=
  (litCI (("ZZ").data) s).bind (fun z =>
    (many1 isDigitC z.2).map (fun ds =>
      match ds.2 with
      | c :: _ => if isAlphaC c then upL (z.1 ++ ds.1 ++ [c]) else upL (z.1 ++ ds.1)
      | [] => upL (z.1 ++ ds.1)))

/-- CASE 8: a G-VAW-led SKU whose last of at least three parts is a
letter-digits code. -/
def caseGVAW (s : List Char) : Option (List Char) :=
  if isPre (("G-VAW").data) (upL s) then lastPartLD s 3 else none

/-- CASE 9: X, digits, dash, digits. -/
def case9X (s : List Char) : Option (List Char) :=
  match s with
  | x :: r1 =>
    if ciEqC x 'X' then
      (many1 isDigitC r1).bind (fun d1 =>
        match d1.2 with
        | h :: r3 =>
          if h == '-' then
            (many1 isDigitC r3).map (fun d2 => upL (x :: d1.1 ++ h :: d2.1))
          else none
        | [] => none)
    else none
  | [] => none

/-- CASE 10: MS-, alphanumerics, and an optional dash plus a single
alphanumeric. -/
def case10MS (s : List Char) : Option (List Char) :=
  (litCI (("MS-").data) s).bind (fun p =>
    (many1 isAlnumC p.2).map (fun a =>
      match a.2 with
      | h :: c :: _ =>
        if h == '-' && isAlnumC c then upL (p.1 ++ a.1 ++ [h, c])
        else upL (p.1 ++ a.1)
      | _ => upL (p.1 ++ a.1)))

/-- CASE 11: Q, digits, and an optional dash plus alphanumerics. -/
def case11Q (s : List Char) : Option (List Char) :=
  match s with
  | q :: r1 =>
    if ciEqC q 'Q' then
      (many1 isDigitC r1).map (fun ds =>
        match ds.2 with
        | h :: r3 =>
          if h == '-' then
            match many1 isAlnumC r3 with
            | some (a2, _) => upL (q :: ds.1 ++ h :: a2)
            | none => upL (q :: ds.1)
          else upL (q :: ds.1)
        | [] => upL (q :: ds.1))
    else none
  | [] => none

/-- CASE 12: alphanumerics, a dash, one alphanumeric, not followed by
another alphanumeric. -/
def case12Suffix (s : List Char) : Option (List Char) :=
  (many1 isAlnumC s).bind (fun a =>
    match a.2 with
    | h :: c :: rest =>
      if h == '-' && isAlnumC c && notAlnumHead rest then
        some (upL (a.1 ++ [h, c]))
      else none
    | _ => none)

/-- CASE 13: a letter, digits and trailing letters, with the secondary
short-suffix check on what follows. -/
def case13Single (s : List Char) : Option (List Char) :=
  (letterDigits1 s).map (fun g =>
    let ls := g.2.takeWhile isAlphaC
    let rest := g.2.dropWhile isAlphaC
    match rest with
    | h :: c :: r2 =>
      if h == '-' && isAlnumC c && notAlnumHead r2 then
        upL (g.1 ++ ls ++ [h, c])
      else upL (g.1 ++ ls)
    | _ => upL (g.1 ++ ls))

/-- The ten color keywords hard-coded inside CASE 14. -/
def colorKw10 : List (List Char) :=
  [("BLACK").data, ("BLUE").data, ("GREY").data, ("RED").data, ("GREEN").data,
   ("YELLOW").data, ("SILVER").data, ("WHITE").data, ("TRIM").data, ("SOLID").data]

/-- Python negative-index slice dropping the last `n` characters. -/
def dropLastN (n : Nat) (l : List Char) : List Char := l.take (l.length - n)

def endsWithL (pat l : List Char) : Bool := isPre pat.reverse l.reverse

/-- The CASE 14 re-evaluation of the prefix before " - ": only the MS-,
Q-code, short-suffix and single-letter rules are re-run; otherwise the
uppercased prefix is returned, with a trailing " CVT" stripped. -/
def case14Rerun (pb : List Char) : List Char :=
  match case10MS pb with
  | some g => g
  | none =>
    match case11Q pb with
    | some g => g
    | none =>
      match case12Suffix pb with
      | some g => g
      | none =>
        match case13Single pb with
        | some g => g
        | none =>
          let idf := upL pb
          if endsWithL ((" CVT").data) idf then stripL (dropLastN 4 idf) else idf

/-- CASE 14: a " - " separator whose suffix part mentions one of ten
color keywords; the stripped prefix is re-evaluated by `case14Rerun`. -/
def case14Color (s : List Char) : Option (List Char) :=
  match splitFirstOn ((" - ").data) s with
  | some (p, sfx) =>
    if colorKw10.any (fun kw => occursIn kw (upL sfx)) then
      some (case14Rerun (stripL p))
    else none
  | none => none

/-- CASE 15: VAW, an optional dash, then a letter-digits group. -/
def case15VAW (s : List Char) : Option (List Char) :=
  (litCI (("VAW").data) s).bind (fun p =>
    match p.2 with
    | '-' :: r2 => (letterDigits1 r2).map (fun g => upL g.1)
    | r1 => (letterDigits1 r1).map (fun g => upL g.1))

/-- CASE 16: VAW plus digits up to a word boundary, a space somewhere,
and a last part (of at least two) that is a letter-digits code. -/
def case16VAWnum (s : List Char) : Option (List Char) :=
  (litCI (("VAW").data) s).bind (fun p =>
    (many1 isDigitC p.2).bind (fun ds =>
      if notWordHead ds.2 && s.contains ' ' then lastPartLD s 2
      else none))

/-- CASE 17: leading digits up to a word boundary, with the one
hard-coded legacy remap of 8435 to L2. -/
def case17Digit (s : List Char) : Option (List Char) :=
  (many1 isDigitC s).bind (fun ds =>
    if notWordHead ds.2 then
      if ds.1 == ("8435").data then some (("L2").data) else some ds.1
    else none)

/-- CASE 18 first findall: word-bounded letter-digits groups,
non-overlapping, left to right.  The boolean tracks whether the
previous character was a word character. -/
def findall18a : Nat → Bool → List Char → List (List Char)
  | 0, _, _ => []
  | _ + 1, _, [] => []
  | fuel + 1, prevW, c :: cs =>
    if !prevW && isAlphaC c then
      match many1 isDigitC cs with
      | some (ds, r) =>
        if notWordHead r then (c :: ds) :: findall18a fuel true r
        else findall18a fuel (isWordC c) cs
      | none => findall18a fuel (isWordC c) cs
    else findall18a fuel (isWordC c) cs

/-- CASE 18 second findall: letter-digits groups with no boundary
requirement. -/
def findall18b : Nat → List Char → List (List Char)
  | 0, _ => []
  | _ + 1, [] => []
  | fuel + 1, c :: cs =>
    if isAlphaC c then
      match many1 isDigitC cs with
      | some (ds, r) => (c :: ds) :: findall18b fuel r
      | none => findall18b fuel cs
    else findall18b fuel cs

/-- CASE 19 findall: letters-then-digits or digits-then-letters runs,
non-overlapping, left to right. -/
def findall19 : Nat → List Char → List (List Char)
  | 0, _ => []
  | _ + 1, [] => []
  | fuel + 1, c :: cs =>
    if isAlphaC c then
      match many1 isDigitC ((c :: cs).dropWhile isAlphaC) with
      | some (ds, r2) => ((c :: cs).takeWhile isAlphaC ++ ds) :: findall19 fuel r2
      | none => findall19 fuel cs
    else if isDigitC c then
      match many1 isAlphaC ((c :: cs).dropWhile isDigitC) with
      | some (ls, r2) => ((c :: cs).takeWhile isDigitC ++ ls) :: findall19 fuel r2
      | none => findall19 fuel cs
    else findall19 fuel cs

/-- The cascade after the exception and prefix handling: `orig` is the
stripped original (used by the final no-match fallback), `s` the
working SKU after the CT65 prefix removal. -/
def extractCore (orig s : List Char) : List Char :=
  match case1V s with
  | some g => g
  | none =>
  match case2VAW s with
  | some g => g
  | none =>
  match case3ABNH s with
  | some g => g
  | none =>
  match case4Holes s with
  | some g => g
  | none =>
  match (if occursIn (("HOLES").data) (upL s) then case5HolesSearch s else none) with
  | some g => g
  | none =>
  match caseVelour s with
  | some g => g
  | none =>
  match case7ZZ s with
  | some g => g
  | none =>
  match caseGVAW s with
  | some g => g
  | none =>
  match case9X s with
  | some g => g
  | none =>
  match case10MS s with
  | some g => g
  | none =>
  match case11Q s with
  | some g => g
  | none =>
  match case12Suffix s with
  | some g => g
  | none =>
  match case13Single s with
  | some g => g
  | none =>
  match case14Color s with
  | some g => g
  | none =>
  match case15VAW s with
  | some g => g
  | none =>
  match case16VAWnum s with
  | some g => g
  | none =>
  match case17Digit s with
  | some g => g
  | none =>
  match (findall18a s.length false s).getLast? with
  | some g => upL g
  | none =>
  match (findall18b s.length s).getLast? with
  | some g => upL g
  | none =>
  match (findall19 s.length s).getLast? with
  | some g => upL g
  | none => upL orig

/-- `extract_sku_identifier` on a string input. -/
def extract_sku_identifier (sku : String) : String :=
  let s0 := stripL sku.data
  if upL s0 == ("R-VAW0212").data then "R-VAW0212"
  else
    let s := if isPre (("CT65 ").data) (upL s0) then stripL (s0.drop 5) else s0
    ⟨extractCore s0 s⟩

/-- `extract_sku_identifier` including the non-string input branch
(non-string inputs are modelled as `none`). -/
def extractSkuOpt : Option String → String
  | some s => extract_sku_identifier s
  | none => ""

/-! ## Claim C3: totality and non-emptiness of the extractor

Every case of the cascade returns a non-empty identifier whenever it
fires; the final fallback returns the uppercased stripped original.
The only delicate case is the CASE 14 default branch, which may strip
a trailing " CVT": the character-level lemmas below show the head of
the stripped prefix survives. -/

theorem charToNat_ofNat (n : Nat) (h : n < 55296) : (Char.ofNat n).toNat = n := by
  have hv : n.isValidChar := Or.inl (by omega)
  simp [Char.ofNat, hv, Char.ofNatAux, Char.toNat, UInt32.toNat]

theorem char_eq_of_toNat (a b : Char) (h : a.toNat = b.toNat) : a = b := by
  apply Char.eq_of_val_eq
  apply UInt32.eq_of_toBitVec_eq
  apply BitVec.eq_of_toNat_eq
  exact h

theorem isWS_iff_toNat (c : Char) : isWS c = true ↔
    (c.toNat = 32 ∨ c.toNat = 9 ∨ c.toNat = 13 ∨ c.toNat = 10) := by
  unfold isWS Char.isWhitespace
  constructor
  · intro h
    simp only [Bool.or_eq_true, decide_eq_true_eq] at h
    rcases h with ((h | h) | h) | h <;> rw [h] <;> simp [Char.toNat]
  · intro h
    simp only [Bool.or_eq_true, decide_eq_true_eq]
    rcases h with h | h | h | h
    · exact Or.inl (Or.inl (Or.inl (char_eq_of_toNat c ' ' h)))
    · exact Or.inl (Or.inl (Or.inr (char_eq_of_toNat c '\t' h)))
    · exact Or.inl (Or.inr (char_eq_of_toNat c '\r' h))
    · exact Or.inr (char_eq_of_toNat c '\n' h)

theorem isWS_toUpper (c : Char) : isWS c.toUpper = isWS c := by
  show isWS (if c.toNat ≥ 97 ∧ c.toNat ≤ 122 then Char.ofNat (c.toNat - 32) else c) =
    isWS c
  by_cases hl : c.toNat ≥ 97 ∧ c.toNat ≤ 122
  · rw [if_pos hl]
    obtain ⟨h97, h122⟩ := hl
    have ht : (Char.ofNat (c.toNat - 32)).toNat = c.toNat - 32 :=
      charToNat_ofNat _ (by omega)
    have h1 : isWS (Char.ofNat (c.toNat - 32)) = false := by
      by_contra hcon
      have := (isWS_iff_toNat _).mp (by
        cases hx : isWS (Char.ofNat (c.toNat - 32))
        · exact absurd hx hcon
        · rfl)
      rw [ht] at this
      omega
    have h2 : isWS c = false := by
      by_contra hcon
      have := (isWS_iff_toNat c).mp (by
        cases hx : isWS c
        · exact absurd hx hcon
        · rfl)
      omega
    rw [h1, h2]
  · rw [if_neg hl]

/-- Head condition: the list is empty or starts with a non-whitespace
character (every `stripL` image satisfies it). -/
def headNonWS : List Char → Prop
  | [] => True
  | c :: _ => isWS c = false

theorem dropWhile_head_false (p : Char → Bool) :
    ∀ (l : List Char) (c : Char) (cs : List Char),
      l.dropWhile p = c :: cs → p c = false := by
  intro l
  induction l with
  | nil => intro c cs h; simp at h
  | cons a as ih =>
    intro c cs h
    rw [List.dropWhile_cons] at h
    by_cases hp : p a
    · rw [if_pos hp] at h
      exact ih c cs h
    · rw [if_neg hp] at h
      obtain ⟨h1, -⟩ := List.cons.injEq .. |>.mp h
      rw [← h1]
      exact Bool.eq_false_iff.mpr hp

theorem stripL_head_stays (c : Char) (cs : List Char) (hc : isWS c = false) :
    ∃ cs', stripL (c :: cs) = c :: cs' := by
  unfold stripL
  rw [List.dropWhile_cons, if_neg (by simp [hc])]
  rw [List.reverse_cons, List.dropWhile_append]
  by_cases hall : (cs.reverse.dropWhile isWS).isEmpty
  · rw [if_pos hall]
    rw [List.dropWhile_cons]
    rw [if_neg (by simp [hc])]
    exact ⟨[], rfl⟩
  · rw [if_neg hall]
    refine ⟨(cs.reverse.dropWhile isWS).reverse, ?_⟩
    rw [List.reverse_append]
    rfl

theorem stripL_eq_of_dropWhile (l : List Char) (c : Char) (cs : List Char)
    (h : l.dropWhile isWS = c :: cs) : stripL l = stripL (c :: cs) := by
  have hc : isWS c = false := dropWhile_head_false isWS l c cs h
  unfold stripL
  rw [h, List.dropWhile_cons, if_neg (by simp [hc])]

theorem stripL_headNonWS (l : List Char) : headNonWS (stripL l) := by
  cases hd : l.dropWhile isWS with
  | nil =>
    have : stripL l = [] := by
      unfold stripL
      rw [hd]
      rfl
    rw [this]
    trivial
  | cons c cs =>
    have hc : isWS c = false := dropWhile_head_false isWS l c cs hd
    rw [stripL_eq_of_dropWhile l c cs hd]
    obtain ⟨cs', hcs'⟩ := stripL_head_stays c cs hc
    rw [hcs']
    exact hc

theorem stripL_ne_of_head (c : Char) (cs : List Char) (hc : isWS c = false) :
    stripL (c :: cs) ≠ [] := by
  obtain ⟨cs', h⟩ := stripL_head_stays c cs hc
  rw [h]
  exact List.cons_ne_nil c cs'

theorem upL_eq_nil (l : List Char) : upL l = [] ↔ l = [] := by
  unfold upL
  exact List.map_eq_nil_iff

theorem headNonWS_upL (l : List Char) (h : headNonWS l) : headNonWS (upL l) := by
  cases l with
  | nil => trivial
  | cons c cs =>
    show isWS c.toUpper = false
    rw [isWS_toUpper]
    exact h

/-! ## Non-emptiness of every cascade case -/

theorem many1_ne (p : Char → Bool) (s g r : List Char)
    (h : many1 p s = some (g, r)) : g ≠ [] := by
  cases s with
  | nil => simp [many1] at h
  | cons c cs =>
    by_cases hp : p c
    · simp only [many1, if_pos hp, Option.some.injEq, Prod.mk.injEq] at h
      rw [← h.1]
      exact List.cons_ne_nil _ _
    · simp [many1, hp] at h

theorem litCI_ne (p0 : Char) (ps s a r : List Char)
    (h : litCI (p0 :: ps) s = some (a, r)) : a ≠ [] := by
  cases s with
  | nil => simp [litCI] at h
  | cons c cs =>
    by_cases hc : ciEqC p0 c
    · simp only [litCI, if_pos hc] at h
      cases hrec : litCI ps cs with
      | none => rw [hrec] at h; simp at h
      | some pr =>
        rw [hrec] at h
        simp only [Option.some.injEq, Prod.mk.injEq] at h
        rw [← h.1]
        exact List.cons_ne_nil _ _
    · simp [litCI, hc] at h

theorem letterDigits1_ne (s g r : List Char)
    (h : letterDigits1 s = some (g, r)) : g ≠ [] := by
  cases s with
  | nil => simp [letterDigits1] at h
  | cons c cs =>
    by_cases hc : isAlphaC c
    · simp only [letterDigits1, if_pos hc] at h
      cases hm : many1 isDigitC cs with
      | none => rw [hm] at h; simp at h
      | some pr =>
        rw [hm] at h
        simp only [Option.some.injEq, Prod.mk.injEq] at h
        rw [← h.1]
        exact List.cons_ne_nil _ _
    · simp [letterDigits1, hc] at h

theorem holesTailAt_ne (r2 : List Char) (k : Nat) (g : List Char)
    (h : holesTailAt r2 k = some g) : g ≠ [] := by
  unfold holesTailAt at h
  cases h1 : litCI (("HOLES").data) (r2.drop k) with
  | some pr =>
    rw [h1] at h
    simp only [Option.some.injEq] at h
    rw [← h]
    intro hcon
    have := List.append_eq_nil.mp hcon
    exact litCI_ne _ _ _ _ _ h1 this.2
  | none =>
    rw [h1] at h
    cases h2 : litCI (("NOHOLES").data) (r2.drop k) with
    | some pr =>
      rw [h2] at h
      simp only [Option.some.injEq] at h
      rw [← h]
      intro hcon
      have := List.append_eq_nil.mp hcon
      exact litCI_ne _ _ _ _ _ h2 this.2
    | none => rw [h2] at h; exact Option.noConfusion h

theorem holesTail_ne (r2 : List Char) :
    ∀ (k : Nat) (g : List Char), holesTail r2 k = some g → g ≠ [] := by
  intro k
  induction k with
  | zero => intro g h; exact holesTailAt_ne r2 0 g h
  | succ k ih =>
    intro g h
    unfold holesTail at h
    cases h1 : holesTailAt r2 (k + 1) with
    | some g2 =>
      rw [h1] at h
      exact (Option.some.inj h) ▸ holesTailAt_ne r2 (k + 1) g2 h1
    | none =>
      rw [h1] at h
      exact ih g h

theorem holesPlusBack_ne (s : List Char) :
    ∀ (k : Nat) (g : List Char), holesPlusBack s k = some g → g ≠ [] := by
  intro k
  induction k with
  | zero => intro g h; simp [holesPlusBack] at h
  | succ k ih =>
    intro g h
    unfold holesPlusBack at h
    cases h1 : holesTailAt s (k + 1) with
    | some g2 =>
      rw [h1] at h
      exact (Option.some.inj h) ▸ holesTailAt_ne s (k + 1) g2 h1
    | none =>
      rw [h1] at h
      exact ih g h

theorem fullLetterDigits_ne (l : List Char) (h : fullLetterDigits l = true) :
    l ≠ [] := by
  cases l with
  | nil => simp [fullLetterDigits] at h
  | cons c cs => exact List.cons_ne_nil c cs

theorem lastPartLD_ne (s : List Char) (k : Nat) (g : List Char)
    (h : lastPartLD s k = some g) : g ≠ [] := by
  unfold lastPartLD at h
  by_cases hk : k ≤ (splitWs s).length
  · rw [if_pos hk] at h
    cases hl : (splitWs s).getLast? with
    | none => rw [hl] at h; exact Option.noConfusion h
    | some lp =>
      rw [hl] at h
      dsimp only at h
      by_cases hf : fullLetterDigits (upL (stripL lp))
      · rw [if_pos hf] at h
        rw [← Option.some.inj h]
        exact fullLetterDigits_ne _ hf
      · rw [if_neg hf] at h
        exact Option.noConfusion h
  · rw [if_neg hk] at h
    exact Option.noConfusion h

theorem upL_cons_ne (c : Char) (cs : List Char) : upL (c :: cs) ≠ [] := by
  simp [upL]

theorem upL_ne_of_ne (l : List Char) (h : l ≠ []) : upL l ≠ [] := by
  intro hcon
  exact h ((upL_eq_nil l).mp hcon)

theorem upL_append_cons_ne (a : List Char) (c : Char) (cs : List Char) :
    upL (a ++ c :: cs) ≠ [] := by
  apply upL_ne_of_ne
  simp

theorem case1V_ne (s g : List Char) (h : case1V s = some g) : g ≠ [] := by
  cases s with
  | nil => simp [case1V] at h
  | cons c cs =>
    by_cases hc : ciEqC c 'V'
    · simp only [case1V, if_pos hc] at h
      cases hm : many1 isDigitC cs with
      | none => rw [hm] at h; exact Option.noConfusion h
      | some pr =>
        obtain ⟨ds, r⟩ := pr
        rw [hm] at h
        rw [← Option.some.inj h]
        exact upL_cons_ne _ _
    · simp [case1V, hc] at h

theorem case2VAW_ne (s g : List Char) (h : case2VAW s = some g) : g ≠ [] := by
  cases s with
  | nil => simp [case2VAW] at h
  | cons c0 rest0 =>
    cases rest0 with
    | nil => simp [case2VAW] at h
    | cons c1 rest =>
      by_cases hc : isAlphaC c0 && c1 == '-'
      · simp only [case2VAW, if_pos hc] at h
        obtain ⟨r1, -, h⟩ := Option.bind_eq_some.mp h
        obtain ⟨r2, -, h⟩ := Option.bind_eq_some.mp h
        obtain ⟨r3, -, h⟩ := Option.bind_eq_some.mp h
        obtain ⟨r4, -, h⟩ := Option.bind_eq_some.mp h
        obtain ⟨r5, -, h⟩ := Option.bind_eq_some.mp h
        obtain ⟨g6, hg6, h⟩ := Option.map_eq_some'.mp h
        obtain ⟨g61, g62⟩ := g6
        rw [← h]
        exact upL_ne_of_ne _ (letterDigits1_ne _ _ _ hg6)
      · simp [case2VAW, hc] at h

theorem case3ABNH_ne (s g : List Char) (h : case3ABNH s = some g) : g ≠ [] := by
  unfold case3ABNH at h
  obtain ⟨g1, hg1, h⟩ := Option.bind_eq_some.mp h
  obtain ⟨g11, g12⟩ := g1
  obtain ⟨b1, hb1, h⟩ := Option.map_eq_some'.mp h
  rw [← h]
  apply upL_ne_of_ne
  intro hcon
  exact letterDigits1_ne _ _ _ hg1 (List.append_eq_nil.mp hcon).1

theorem case4Holes_ne (s g : List Char) (h : case4Holes s = some g) : g ≠ [] := by
  unfold case4Holes at h
  obtain ⟨a, ha, h⟩ := Option.bind_eq_some.mp h
  obtain ⟨a1, a2⟩ := a
  cases a2 with
  | nil => exact Option.noConfusion h
  | cons c r2 =>
    dsimp only at h
    by_cases hc : c == '-'
    · rw [if_pos hc] at h
      obtain ⟨t, -, h⟩ := Option.map_eq_some'.mp h
      rw [← h]
      exact upL_append_cons_ne _ _ _
    · rw [if_neg hc] at h
      exact Option.noConfusion h

theorem case5HolesSearch_ne :
    ∀ (s g : List Char), case5HolesSearch s = some g → g ≠ [] := by
  intro s
  induction s with
  | nil => intro g h; simp [case5HolesSearch] at h
  | cons c cs ih =>
    intro g h
    unfold case5HolesSearch at h
    cases h1 : holesPlusBack (c :: cs) ((c :: cs).takeWhile isAlnumC).length with
    | some g2 =>
      rw [h1] at h
      rw [← Option.some.inj h]
      exact upL_ne_of_ne _ (holesPlusBack_ne _ _ _ h1)
    | none =>
      rw [h1] at h
      exact ih g h

theorem caseVelour_ne (s g : List Char) (h : caseVelour s = some g) : g ≠ [] := by
  unfold caseVelour at h
  by_cases hp : isPre (("VELOUR").data) (upL s)
  · rw [if_pos hp] at h
    exact lastPartLD_ne s 3 g h
  · rw [if_neg hp] at h
    exact Option.noConfusion h

theorem case7ZZ_ne (s g : List Char) (h : case7ZZ s = some g) : g ≠ [] := by
  unfold case7ZZ at h
  obtain ⟨z, hz, h⟩ := Option.bind_eq_some.mp h
  obtain ⟨z1, z2⟩ := z
  obtain ⟨d, hd, h⟩ := Option.map_eq_some'.mp h
  obtain ⟨d1, d2⟩ := d
  rw [← h]
  cases d2 with
  | nil =>
    apply upL_ne_of_ne
    intro hcon
    exact litCI_ne _ _ _ _ _ hz (List.append_eq_nil.mp hcon).1
  | cons x xs =>
    dsimp only
    by_cases hx : isAlphaC x
    · rw [if_pos hx]
      apply upL_ne_of_ne
      intro hcon
      exact litCI_ne _ _ _ _ _ hz
        (List.append_eq_nil.mp (List.append_eq_nil.mp hcon).1).1
    · rw [if_neg hx]
      apply upL_ne_of_ne
      intro hcon
      exact litCI_ne _ _ _ _ _ hz (List.append_eq_nil.mp hcon).1

theorem caseGVAW_ne (s g : List Char) (h : caseGVAW s = some g) : g ≠ [] := by
  unfold caseGVAW at h
  by_cases hp : isPre (("G-VAW").data) (upL s)
  · rw [if_pos hp] at h
    exact lastPartLD_ne s 3 g h
  · rw [if_neg hp] at h
    exact Option.noConfusion h

theorem case9X_ne (s g : List Char) (h : case9X s = some g) : g ≠ [] := by
  cases s with
  | nil => simp [case9X] at h
  | cons x r1 =>
    by_cases hx : ciEqC x 'X'
    · simp only [case9X, if_pos hx] at h
      obtain ⟨d1, -, h⟩ := Option.bind_eq_some.mp h
      obtain ⟨d11, d12⟩ := d1
      cases d12 with
      | nil => exact Option.noConfusion h
      | cons c r3 =>
        dsimp only at h
        by_cases hc : c == '-'
        · rw [if_pos hc] at h
          obtain ⟨d2, -, h⟩ := Option.map_eq_some'.mp h
          rw [← h]
          exact upL_cons_ne _ _
        · rw [if_neg hc] at h
          exact Option.noConfusion h
    · simp [case9X, hx] at h

theorem case10MS_ne (s g : List Char) (h : case10MS s = some g) : g ≠ [] := by
  unfold case10MS at h
  obtain ⟨p, hp, h⟩ := Option.bind_eq_some.mp h
  obtain ⟨p1, p2⟩ := p
  obtain ⟨a, ha, h⟩ := Option.map_eq_some'.mp h
  obtain ⟨a1, a2⟩ := a
  rw [← h]
  have hne : p1 ++ a1 ≠ [] := by
    intro hcon
    exact litCI_ne _ _ _ _ _ hp (List.append_eq_nil.mp hcon).1
  cases a2 with
  | nil => exact upL_ne_of_ne _ hne
  | cons x xs =>
    cases xs with
    | nil => exact upL_ne_of_ne _ hne
    | cons y ys =>
      dsimp only
      by_cases hxy : x == '-' && isAlnumC y
      · rw [if_pos hxy]
        apply upL_ne_of_ne
        intro hcon
        exact litCI_ne _ _ _ _ _ hp
          (List.append_eq_nil.mp (List.append_eq_nil.mp hcon).1).1
      · rw [if_neg hxy]
        exact upL_ne_of_ne _ hne

theorem case11Q_ne (s g : List Char) (h : case11Q s = some g) : g ≠ [] := by
  cases s with
  | nil => simp [case11Q] at h
  | cons q r1 =>
    by_cases hq : ciEqC q 'Q'
    · simp only [case11Q, if_pos hq] at h
      obtain ⟨d, hd, h⟩ := Option.map_eq_some'.mp h
      obtain ⟨d1, d2⟩ := d
      rw [← h]
      cases d2 with
      | nil => exact upL_cons_ne _ _
      | cons x r3 =>
        dsimp only
        by_cases hx : x == '-'
        · rw [if_pos hx]
          cases many1 isAlnumC r3 with
          | none => exact upL_cons_ne _ _
          | some pr =>
            obtain ⟨pr1, pr2⟩ := pr
            exact upL_cons_ne _ _
        · rw [if_neg hx]
          exact upL_cons_ne _ _
    · simp [case11Q, hq] at h

theorem case12Suffix_ne (s g : List Char) (h : case12Suffix s = some g) : g ≠ [] := by
  unfold case12Suffix at h
  obtain ⟨a, ha, h⟩ := Option.bind_eq_some.mp h
  obtain ⟨a1, a2⟩ := a
  cases a2 with
  | nil => exact Option.noConfusion h
  | cons x xs =>
    cases xs with
    | nil => exact Option.noConfusion h
    | cons y ys =>
      dsimp only at h
      by_cases hc : x == '-' && isAlnumC y && notAlnumHead ys
      · rw [if_pos hc] at h
        rw [← Option.some.inj h]
        apply upL_ne_of_ne
        intro hcon
        exact many1_ne _ _ _ _ ha (List.append_eq_nil.mp hcon).1
      · rw [if_neg hc] at h
        exact Option.noConfusion h

theorem case13Single_ne (s g : List Char) (h : case13Single s = some g) : g ≠ [] := by
  unfold case13Single at h
  obtain ⟨g1, hg1, h⟩ := Option.map_eq_some'.mp h
  obtain ⟨g11, g12⟩ := g1
  have hne1 : g11 ≠ [] := letterDigits1_ne _ _ _ hg1
  rw [← h]
  dsimp only
  split
  · split
    · apply upL_ne_of_ne
      intro hcon
      exact hne1 (List.append_eq_nil.mp (List.append_eq_nil.mp hcon).1).1
    · apply upL_ne_of_ne
      intro hcon
      exact hne1 (List.append_eq_nil.mp hcon).1
  · apply upL_ne_of_ne
    intro hcon
    exact hne1 (List.append_eq_nil.mp hcon).1

theorem case15VAW_ne (s g : List Char) (h : case15VAW s = some g) : g ≠ [] := by
  unfold case15VAW at h
  obtain ⟨p, hp, h⟩ := Option.bind_eq_some.mp h
  obtain ⟨p1, p2⟩ := p
  dsimp only at h
  split at h
  all_goals
    obtain ⟨g1, hg1, h2⟩ := Option.map_eq_some'.mp h
    obtain ⟨g11, g12⟩ := g1
    rw [← h2]
    exact upL_ne_of_ne _ (letterDigits1_ne _ _ _ hg1)

theorem case16VAWnum_ne (s g : List Char) (h : case16VAWnum s = some g) : g ≠ [] := by
  unfold case16VAWnum at h
  obtain ⟨p, hp, h⟩ := Option.bind_eq_some.mp h
  obtain ⟨d, hd, h⟩ := Option.bind_eq_some.mp h
  by_cases hc : notWordHead d.2 && s.contains ' '
  · rw [if_pos hc] at h
    exact lastPartLD_ne s 2 g h
  · rw [if_neg hc] at h
    exact Option.noConfusion h

theorem case17Digit_ne (s g : List Char) (h : case17Digit s = some g) : g ≠ [] := by
  unfold case17Digit at h
  obtain ⟨d, hd, h⟩ := Option.bind_eq_some.mp h
  obtain ⟨d1, d2⟩ := d
  by_cases hb : notWordHead d2
  · rw [if_pos hb] at h
    by_cases h8 : (d1 == ("8435").data : Bool)
    · rw [if_pos h8] at h
      rw [← Option.some.inj h]
      simp
    · rw [if_neg h8] at h
      rw [← Option.some.inj h]
      exact many1_ne _ _ _ _ hd
  · rw [if_neg hb] at h
    exact Option.noConfusion h

theorem findall18a_mem_ne : ∀ (fuel : Nat) (w : Bool) (s g : List Char),
    g ∈ findall18a fuel w s → g ≠ [] := by
  intro fuel
  induction fuel with
  | zero => intro w s g h; simp [findall18a] at h
  | succ fuel ih =>
    intro w s g h
    cases s with
    | nil => simp [findall18a] at h
    | cons c cs =>
      unfold findall18a at h
      by_cases h1 : !w && isAlphaC c
      · rw [if_pos h1] at h
        cases hm : many1 isDigitC cs with
        | none => rw [hm] at h; exact ih _ _ _ h
        | some pr =>
          obtain ⟨ds, r⟩ := pr
          rw [hm] at h
          dsimp only at h
          by_cases hw : notWordHead r
          · rw [if_pos hw] at h
            rcases List.mem_cons.mp h with he | hmem
            · rw [he]; exact List.cons_ne_nil _ _
            · exact ih _ _ _ hmem
          · rw [if_neg hw] at h
            exact ih _ _ _ h
      · rw [if_neg h1] at h
        exact ih _ _ _ h

theorem findall18b_mem_ne : ∀ (fuel : Nat) (s g : List Char),
    g ∈ findall18b fuel s → g ≠ [] := by
  intro fuel
  induction fuel with
  | zero => intro s g h; simp [findall18b] at h
  | succ fuel ih =>
    intro s g h
    cases s with
    | nil => simp [findall18b] at h
    | cons c cs =>
      unfold findall18b at h
      by_cases h1 : isAlphaC c
      · rw [if_pos h1] at h
        cases hm : many1 isDigitC cs with
        | none => rw [hm] at h; exact ih _ _ h
        | some pr =>
          obtain ⟨ds, r⟩ := pr
          rw [hm] at h
          rcases List.mem_cons.mp h with he | hmem
          · rw [he]; exact List.cons_ne_nil _ _
          · exact ih _ _ hmem
      · rw [if_neg h1] at h
        exact ih _ _ h

theorem findall19_mem_ne : ∀ (fuel : Nat) (s g : List Char),
    g ∈ findall19 fuel s → g ≠ [] := by
  intro fuel
  induction fuel with
  | zero => intro s g h; simp [findall19] at h
  | succ fuel ih =>
    intro s g h
    cases s with
    | nil => simp [findall19] at h
    | cons c cs =>
      unfold findall19 at h
      by_cases h1 : isAlphaC c
      · rw [if_pos h1] at h
        cases hm : many1 isDigitC ((c :: cs).dropWhile isAlphaC) with
        | none => rw [hm] at h; exact ih _ _ h
        | some pr =>
          obtain ⟨ds, r⟩ := pr
          rw [hm] at h
          rcases List.mem_cons.mp h with he | hmem
          · rw [he, List.takeWhile_cons_of_pos h1]
            exact List.cons_ne_nil _ _
          · exact ih _ _ hmem
      · rw [if_neg h1] at h
        by_cases h2 : isDigitC c
        · rw [if_pos h2] at h
          cases hm : many1 isAlphaC ((c :: cs).dropWhile isDigitC) with
          | none => rw [hm] at h; exact ih _ _ h
          | some pr =>
            obtain ⟨ls, r⟩ := pr
            rw [hm] at h
            rcases List.mem_cons.mp h with he | hmem
            · rw [he, List.takeWhile_cons_of_pos h2]
              exact List.cons_ne_nil _ _
            · exact ih _ _ hmem
        · rw [if_neg h2] at h
          exact ih _ _ h

theorem isPre_decomp : ∀ (p s : List Char), isPre p s = true → ∃ r, s = p ++ r := by
  intro p
  induction p with
  | nil => intro s h; exact ⟨s, rfl⟩
  | cons x xs ih =>
    intro s h
    cases s with
    | nil => simp [isPre] at h
    | cons c cs =>
      unfold isPre at h
      rw [Bool.and_eq_true] at h
      obtain ⟨h1, h2⟩ := h
      obtain ⟨r, hr⟩ := ih cs h2
      have hx : x = c := beq_iff_eq.mp h1
      subst hx
      exact ⟨r, by rw [List.cons_append, hr]⟩

theorem splitFirstOn_decomp (pat : List Char) :
    ∀ (s a b : List Char), splitFirstOn pat s = some (a, b) → s = a ++ pat ++ b := by
  intro s
  induction s with
  | nil => intro a b h; simp [splitFirstOn] at h
  | cons c cs ih =>
    intro a b h
    unfold splitFirstOn at h
    by_cases hp : isPre pat (c :: cs)
    · rw [if_pos hp] at h
      obtain ⟨r, hr⟩ := isPre_decomp pat (c :: cs) hp
      have h2 := Option.some.inj h
      obtain ⟨ha, hb⟩ := Prod.mk.injEq _ _ _ _ ▸ h2
      rw [← ha, ← hb, hr, List.drop_left, List.nil_append]
    · rw [if_neg hp] at h
      cases hm : splitFirstOn pat cs with
      | none => rw [hm] at h; exact Option.noConfusion h
      | some pr =>
        obtain ⟨a2, b2⟩ := pr
        rw [hm] at h
        have h2 := Option.some.inj h
        obtain ⟨ha, hb⟩ := Prod.mk.injEq _ _ _ _ ▸ h2
        rw [← ha, ← hb, List.cons_append, List.cons_append, ih a2 b2 hm]

theorem endsWithL_decomp (pat l : List Char) (h : endsWithL pat l = true) :
    ∃ pre, l = pre ++ pat := by
  unfold endsWithL at h
  obtain ⟨r, hr⟩ := isPre_decomp pat.reverse l.reverse h
  refine ⟨r.reverse, ?_⟩
  have h2 := congrArg List.reverse hr
  simpa using h2

theorem dropLastN_append (n : Nat) (pre pat : List Char) (h : pat.length = n) :
    dropLastN n (pre ++ pat) = pre := by
  unfold dropLastN
  rw [List.length_append, h, Nat.add_sub_cancel]
  exact List.take_left pre pat

theorem mem_of_getLast?_eq {α : Type} {l : List α} {x : α}
    (h : l.getLast? = some x) : x ∈ l := by
  obtain ⟨hne, hx⟩ := List.mem_getLast?_eq_getLast h
  rw [hx]
  exact List.getLast_mem hne

theorem case14Rerun_ne (pb : List Char) (hne : pb ≠ []) (hh : headNonWS pb) :
    case14Rerun pb ≠ [] := by
  unfold case14Rerun
  cases h10 : case10MS pb with
  | some g => exact case10MS_ne pb g h10
  | none =>
  cases h11 : case11Q pb with
  | some g => exact case11Q_ne pb g h11
  | none =>
  cases h12 : case12Suffix pb with
  | some g => exact case12Suffix_ne pb g h12
  | none =>
  cases h13 : case13Single pb with
  | some g => exact case13Single_ne pb g h13
  | none =>
  dsimp only
  by_cases hcvt : endsWithL ((" CVT").data) (upL pb)
  · rw [if_pos hcvt]
    obtain ⟨pre, hpre⟩ := endsWithL_decomp _ _ hcvt
    rw [hpre, dropLastN_append 4 pre ((" CVT").data) (by decide)]
    have hup : headNonWS (upL pb) := headNonWS_upL pb hh
    rw [hpre] at hup
    cases pre with
    | nil =>
      exfalso
      rw [List.nil_append] at hup
      have hcvtdata : (" CVT").data = ' ' :: ("CVT").data := rfl
      rw [hcvtdata] at hup
      have hws : isWS ' ' = false := hup
      exact absurd hws (by decide)
    | cons c cs =>
      rw [List.cons_append] at hup
      have hc : isWS c = false := hup
      exact stripL_ne_of_head c cs hc
  · rw [if_neg hcvt]
    exact upL_ne_of_ne pb hne

theorem case14Color_ne (s g : List Char) (hs : headNonWS s)
    (h : case14Color s = some g) : g ≠ [] := by
  unfold case14Color at h
  cases hsp : splitFirstOn ((" - ").data) s with
  | none => rw [hsp] at h; exact Option.noConfusion h
  | some pr =>
    obtain ⟨p, sfx⟩ := pr
    rw [hsp] at h
    dsimp only at h
    by_cases hkw : colorKw10.any (fun kw => occursIn kw (upL sfx))
    · rw [if_pos hkw] at h
      have hdec := splitFirstOn_decomp _ s p sfx hsp
      cases p with
      | nil =>
        exfalso
        rw [hdec, List.nil_append] at hs
        have hsepdata : (" - ").data = ' ' :: ("- ").data := rfl
        rw [hsepdata, List.cons_append] at hs
        have hws : isWS ' ' = false := hs
        exact absurd hws (by decide)
      | cons c cs =>
        have hc : isWS c = false := by
          rw [hdec, List.cons_append, List.cons_append] at hs
          exact hs
        rw [← Option.some.inj h]
        exact case14Rerun_ne (stripL (c :: cs)) (stripL_ne_of_head c cs hc)
          (stripL_headNonWS _)
    · rw [if_neg hkw] at h
      exact Option.noConfusion h

theorem extractCore_ne (orig s : List Char) (horig : orig ≠ [])
    (hs : headNonWS s) : extractCore orig s ≠ [] := by
  unfold extractCore
  cases h1 : case1V s with
  | some g => exact case1V_ne s g h1
  | none =>
  cases h2 : case2VAW s with
  | some g => exact case2VAW_ne s g h2
  | none =>
  cases h3 : case3ABNH s with
  | some g => exact case3ABNH_ne s g h3
  | none =>
  cases h4 : case4Holes s with
  | some g => exact case4Holes_ne s g h4
  | none =>
  cases h5 : (if occursIn (("HOLES").data) (upL s) then case5HolesSearch s else none) with
  | some g =>
    by_cases hocc : occursIn (("HOLES").data) (upL s)
    · rw [if_pos hocc] at h5
      exact case5HolesSearch_ne s g h5
    · rw [if_neg hocc] at h5
      exact Option.noConfusion h5
  | none =>
  cases h6 : caseVelour s with
  | some g => exact caseVelour_ne s g h6
  | none =>
  cases h7 : case7ZZ s with
  | some g => exact case7ZZ_ne s g h7
  | none =>
  cases h8 : caseGVAW s with
  | some g => exact caseGVAW_ne s g h8
  | none =>
  cases h9 : case9X s with
  | some g => exact case9X_ne s g h9
  | none =>
  cases h10 : case10MS s with
  | some g => exact case10MS_ne s g h10
  | none =>
  cases h11 : case11Q s with
  | some g => exact case11Q_ne s g h11
  | none =>
  cases h12 : case12Suffix s with
  | some g => exact case12Suffix_ne s g h12
  | none =>
  cases h13 : case13Single s with
  | some g => exact case13Single_ne s g h13
  | none =>
  cases h14 : case14Color s with
  | some g => exact case14Color_ne s g hs h14
  | none =>
  cases h15 : case15VAW s with
  | some g => exact case15VAW_ne s g h15
  | none =>
  cases h16 : case16VAWnum s with
  | some g => exact case16VAWnum_ne s g h16
  | none =>
  cases h17 : case17Digit s with
  | some g => exact case17Digit_ne s g h17
  | none =>
  cases h18 : (findall18a s.length false s).getLast? with
  | some g =>
    exact upL_ne_of_ne g
      (findall18a_mem_ne s.length false s g (mem_of_getLast?_eq h18))
  | none =>
  cases h18b : (findall18b s.length s).getLast? with
  | some g =>
    exact upL_ne_of_ne g
      (findall18b_mem_ne s.length s g (mem_of_getLast?_eq h18b))
  | none =>
  cases h19 : (findall19 s.length s).getLast? with
  | some g =>
    exact upL_ne_of_ne g
      (findall19_mem_ne s.length s g (mem_of_getLast?_eq h19))
  | none => exact upL_ne_of_ne orig horig

theorem extract_sku_identifier_ne (sku : String) (h : stripL sku.data ≠ []) :
    extract_sku_identifier sku ≠ "" := by
  show (if upL (stripL sku.data) == ("R-VAW0212").data then ("R-VAW0212" : String)
    else ⟨extractCore (stripL sku.data)
      (if isPre (("CT65 ").data) (upL (stripL sku.data))
       then stripL ((stripL sku.data).drop 5)
       else stripL sku.data)⟩) ≠ ""
  by_cases hex : upL (stripL sku.data) == ("R-VAW0212").data
  · rw [if_pos hex]
    decide
  · rw [if_neg hex]
    intro hcon
    have hdata : extractCore (stripL sku.data)
        (if isPre (("CT65 ").data) (upL (stripL sku.data))
         then stripL ((stripL sku.data).drop 5)
         else stripL sku.data) = [] := congrArg String.data hcon
    have hhead : headNonWS (if isPre (("CT65 ").data) (upL (stripL sku.data))
        then stripL ((stripL sku.data).drop 5)
        else stripL sku.data) := by
      by_cases hct : isPre (("CT65 ").data) (upL (stripL sku.data))
      · rw [if_pos hct]; exact stripL_headNonWS _
      · rw [if_neg hct]; exact stripL_headNonWS _
    exact extractCore_ne _ _ h hhead hdata

/-- Claim C3, counterexample: the claim says every string input yields a
non-empty identifier, but the empty string is a string input on which
extract_sku_identifier returns the empty string. -/
theorem C3_counterexample :
    extractSkuOpt (some ("")) = "" ∧ extractSkuOpt (some ("   ")) = "" := by
  exact ⟨rfl, rfl⟩

/-- Claim C3 (amended): the extractor is total; a non-string input yields
the empty string; a string input whose Python strip is empty (only
whitespace, including the empty string) also yields the empty string;
and a string input whose strip is non-empty yields a non-empty
identifier. -/
theorem C3_extractor_totality_amended (x : Option String) :
    (x = none → extractSkuOpt x = "") ∧
    (∀ s, x = some s → stripL s.data = [] → extractSkuOpt x = "") ∧
    (∀ s, x = some s → stripL s.data ≠ [] → extractSkuOpt x ≠ "") := by
  refine ⟨?_, ?_, ?_⟩
  · intro hx
    rw [hx]
    rfl
  · intro s hx hstrip
    rw [hx]
    show (if upL (stripL s.data) == ("R-VAW0212").data then ("R-VAW0212" : String)
      else ⟨extractCore (stripL s.data)
        (if isPre (("CT65 ").data) (upL (stripL s.data))
         then stripL ((stripL s.data).drop 5)
         else stripL s.data)⟩) = ""
    rw [hstrip]
    decide
  · intro s hx hstrip
    rw [hx]
    exact extract_sku_identifier_ne s hstrip

/-- Witness for the amended C3 theorem at a concrete input. -/
theorem C3_witness :
    stripL (("A7")).data ≠ [] ∧ extractSkuOpt (some ("A7")) ≠ "" := by
  constructor
  · decide
  · exact (C3_extractor_totality_amended (some ("A7"))).2.2 ("A7") rfl (by decide)

/-! ## Claim C4: the CASE 14 re-evaluation is not the whole cascade

The separator rule re-runs only the MS, Q-code, short-suffix and
single-letter rules against the stripped prefix; in particular a prefix
that only the VAW rule (CASE 15) would handle is returned verbatim
instead of being re-extracted. -/

/-- Claim C4, counterexample: on the SKU VAW-W0692 - Black the
hard-coded exception and every rule tried before the color-suffix rule
fail on the full string and the suffix carries a color keyword, yet the
extractor returns the uppercased prefix VAW-W0692, while running the
extractor on the prefix alone returns W0692: the cascade is not re-run
in full. -/
theorem C4_counterexample :
    upL (stripL (("VAW-W0692 - Black")).data) ≠ (("R-VAW0212")).data ∧
    isPre ((("CT65 ")).data) (upL (stripL (("VAW-W0692 - Black")).data)) = false ∧
    case1V (("VAW-W0692 - Black")).data = none ∧
    case2VAW (("VAW-W0692 - Black")).data = none ∧
    case3ABNH (("VAW-W0692 - Black")).data = none ∧
    case4Holes (("VAW-W0692 - Black")).data = none ∧
    occursIn ((("HOLES")).data) (upL (("VAW-W0692 - Black")).data) = false ∧
    caseVelour (("VAW-W0692 - Black")).data = none ∧
    case7ZZ (("VAW-W0692 - Black")).data = none ∧
    caseGVAW (("VAW-W0692 - Black")).data = none ∧
    case9X (("VAW-W0692 - Black")).data = none ∧
    case10MS (("VAW-W0692 - Black")).data = none ∧
    case11Q (("VAW-W0692 - Black")).data = none ∧
    case12Suffix (("VAW-W0692 - Black")).data = none ∧
    case13Single (("VAW-W0692 - Black")).data = none ∧
    occursIn ((("BLACK")).data) (upL (("Black")).data) = true ∧
    extract_sku_identifier ("VAW-W0692 - Black") = "VAW-W0692" ∧
    extract_sku_identifier ("VAW-W0692") = "W0692" ∧
    extract_sku_identifier ("VAW-W0692 - Black") ≠
      extract_sku_identifier ("VAW-W0692") := by
  decide

/-- Claim C4 (amended): when the rules before the color-suffix rule all
fail and the string splits at the first " - " with a color keyword in
the suffix, the extractor returns `case14Rerun` of the stripped prefix:
only the MS, Q-code, short-suffix and single-letter rules are re-run
(with a trailing CVT strip on the default), not the entire cascade. -/
theorem C4_color_suffix_amended (orig s p sfx : List Char)
    (h1 : case1V s = none) (h2 : case2VAW s = none) (h3 : case3ABNH s = none)
    (h4 : case4Holes s = none)
    (h5 : occursIn ((("HOLES")).data) (upL s) = false)
    (h6 : caseVelour s = none) (h7 : case7ZZ s = none) (h8 : caseGVAW s = none)
    (h9 : case9X s = none) (h10 : case10MS s = none) (h11 : case11Q s = none)
    (h12 : case12Suffix s = none) (h13 : case13Single s = none)
    (hsplit : splitFirstOn (((" - ")).data) s = some (p, sfx))
    (hkw : colorKw10.any (fun kw => occursIn kw (upL sfx)) = true) :
    extractCore orig s = case14Rerun (stripL p) := by
  have h14 : case14Color s = some (case14Rerun (stripL p)) := by
    unfold case14Color
    rw [hsplit]
    dsimp only
    rw [if_pos hkw]
  unfold extractCore
  rw [h1, h2, h3, h4, h5, h6, h7, h8, h9, h10, h11, h12, h13, h14]
  rfl

/-- Witness for the amended C4 theorem at a concrete input. -/
theorem C4_witness :
    extractCore (("VAW-W0692 - Black")).data (("VAW-W0692 - Black")).data =
      case14Rerun (stripL (("VAW-W0692")).data) :=
  C4_color_suffix_amended (("VAW-W0692 - Black")).data
    (("VAW-W0692 - Black")).data (("VAW-W0692")).data (("Black")).data
    (by decide) (by decide) (by decide) (by decide) (by decide) (by decide)
    (by decide) (by decide) (by decide) (by decide) (by decide) (by decide)
    (by decide) (by decide) (by decide)

/-! ## services/sku_matching.py

A catalog row carries the columns read by the matcher: Template, the
loader-computed Template_Normalized and _normalized_forced_sku columns,
and COMPANY, MODEL, YEAR.  A missing or NaN value is modelled as the
empty string, matching the loader, which fills NaN with "".  The
catalog also records whether the _normalized_forced_sku column exists
at all (`hasForced`). -/

structure Row where
  template : String
  templateNorm : String
  company : String
  model : String
  year : String
  forcedNorm : String
deriving DecidableEq, Repr

structure Catalog where
  hasForced : Bool
  rows : List Row
deriving DecidableEq, Repr

/-- The make / model / year triple read out of `car_details`; an absent
entry is the empty string (falsy, exactly as `dict.get` yields for the
truthiness tests of the source). -/
structure CarDetails where
  make : String
  model : String
  year : String
deriving DecidableEq, Repr

/-- `Template.str.strip().str.upper()` of a row. -/
def tmplKey (r : Row) : List Char := upL (stripL r.template.data)

def isBootmatTitle (title : String) : Bool :=
  occursIn ((("and bootmat")).data) (loL title.data) ||
    occursIn ((("with bootmat")).data) (loL title.data)

/-- `_apply_bootmat_filter`: bootmat titles keep only MS- templates;
all other titles drop BM- and MS- templates. -/
def applyBootmatFilter (title : String) (rows : List Row) : List Row :=
  if isBootmatTitle title then
    rows.filter (fun r => isPre ((("MS-")).data) (tmplKey r))
  else
    rows.filter (fun r =>
      !isPre ((("BM-")).data) (tmplKey r) && !isPre ((("MS-")).data) (tmplKey r))

/-- `_match_by_forced_sku`: nothing when the forced column is absent or
the trimmed case-folded SKU is empty; otherwise the first row whose
normalized forced value equals it. -/
def matchByForcedSku (hasForced : Bool) (sku : String) (rows : List Row) :
    Option Row :=
  if hasForced then
    let ns := loL (stripL sku.data)
    if ns = [] then none
    else rows.find? (fun r => r.forcedNorm.data == ns)
  else none

/-- `_match_by_sku_identifier`: extract the identifier, bail out when it
is empty, otherwise the first row whose Template_Normalized equals the
normalized identifier. -/
def matchBySkuIdentifier (sku : String) (rows : List Row) : Option Row :=
  let idf := extract_sku_identifier sku
  if idf = "" then none
  else rows.find? (fun r => r.templateNorm == normalize_ref_no idf)

/-- The distinct lowercase words of a model string (Python set of
`str.split()`, with first-occurrence order fixed for determinism). -/
def modelWords (s : String) : List (List Char) := (splitWs (loL s.data)).dedup

/-- Size of the intersection of the title model-word set with a row's
MODEL word set. -/
def wordScore (tw : List (List Char)) (r : Row) : Nat :=
  (tw.filter (fun w => (modelWords r.model).contains w)).length

/-- The strict-improvement scan of the candidate rows: starting from no
row and score -1, a row replaces the best exactly when its score is
strictly greater, so the first row attaining the maximum wins. -/
def scanBest (tw : List (List Char)) :
    List Row → Option Row → Int → Option Row × Int
  | [], best, bs => (best, bs)
  | r :: rs, best, bs =>
    if (wordScore tw r : Int) > bs then scanBest tw rs (some r) (wordScore tw r)
    else scanBest tw rs best bs

/-- `_match_by_title_details`: make must match exactly (case-folded),
the best word-intersection score must be positive, and the year gate is
entered only when both year strings are truthy (non-empty). -/
def matchByTitleDetails (year : Nat) (cd : CarDetails) (rows : List Row) :
    Option Row :=
  let mk := loL cd.make.data
  let tw := modelWords cd.model
  if mk = [] || tw = [] then none
  else
    let makeMatches := rows.filter (fun r => loL r.company.data == mk)
    if makeMatches = [] then none
    else
      match scanBest tw makeMatches none (-1) with
      | (some br, bs) =>
        if bs > 0 then
          if (cd.year != "") && (br.year != "") then
            if check_year_match year cd.year br.year then some br else none
          else some br
        else none
      | (none, _) => none

/-- `find_best_match`: bootmat filter, then forced lookup, then
identifier lookup, then the title fallback when car details exist.
`year` stands for `datetime.now().year` inside `check_year_match`. -/
def find_best_match (year : Nat) (sku title : String) (cat : Catalog)
    (cd : Option CarDetails) : Option Row :=
  let filtered := applyBootmatFilter title cat.rows
  if filtered = [] then none
  else
    match matchByForcedSku cat.hasForced sku filtered with
    | some r => some r
    | none =>
      match matchBySkuIdentifier sku filtered with
      | some r => some r
      | none =>
        match cd with
        | some d => matchByTitleDetails year d filtered
        | none => none

/-! ## Claim C2: identifier match modulo the bootmat filter

The claim quantifies over rows of the catalog, but the matcher only
ever sees the rows surviving `_apply_bootmat_filter`: an MS- template
row matching the SKU identifier is invisible under a non-bootmat title,
so the claim as stated fails. -/

def c2Row : Row :=
  { template := "MS-Q7", templateNorm := "MSQ7", company := "FIAT",
    model := "500", year := "2010-2015", forcedNorm := "" }

def c2RowPlain : Row :=
  { template := "Q7", templateNorm := "Q7", company := "BMW",
    model := "X1", year := "2012-2016", forcedNorm := "" }

def c2RowForced : Row :=
  { template := "X5", templateNorm := "X5", company := "BMW",
    model := "X5", year := "2014-2018", forcedNorm := "q7" }

/-- Claim C2, counterexample: the catalog holds exactly one row, whose
normalized template equals the normalized extractor output on the SKU,
and no forced-override column exists; yet under a non-bootmat title the
MS- row is removed by the bootmat filter and the matcher returns no
row at all, while the claim demands that row. -/
theorem C2_counterexample :
    normalize_ref_no (extract_sku_identifier ("MS-Q7")) = c2Row.templateNorm ∧
    isBootmatTitle ("Fiat 500 Car Mats") = false ∧
    find_best_match 2026 ("MS-Q7") ("Fiat 500 Car Mats")
      { hasForced := false, rows := [c2Row] } none ≠ some c2Row ∧
    find_best_match 2026 ("MS-Q7") ("Fiat 500 Car Mats")
      { hasForced := false, rows := [c2Row] } none = none := by
  refine ⟨by decide, by decide, by decide, by decide⟩

/-- Claim C2 (amended): among the rows surviving the bootmat filter, a
forced-override hit (requiring the forced column to exist and the
trimmed case-folded SKU to be non-empty) returns the first such row and
wins over everything else; with no forced hit, a non-empty extracted
identifier whose normalization equals some surviving row's normalized
template returns the first such row, for any car details. -/
theorem C2_matcher_amended (year : Nat) (sku title : String) (cat : Catalog)
    (cd : Option CarDetails) (r : Row) :
    (cat.hasForced = true →
     loL (stripL sku.data) ≠ [] →
     (applyBootmatFilter title cat.rows).find?
        (fun q => q.forcedNorm.data == loL (stripL sku.data)) = some r →
     find_best_match year sku title cat cd = some r) ∧
    (matchByForcedSku cat.hasForced sku (applyBootmatFilter title cat.rows)
        = none →
     extract_sku_identifier sku ≠ "" →
     (applyBootmatFilter title cat.rows).find?
        (fun q => q.templateNorm ==
          normalize_ref_no (extract_sku_identifier sku)) = some r →
     find_best_match year sku title cat cd = some r) := by
  constructor
  · intro hforced hns hfind
    have hne : applyBootmatFilter title cat.rows ≠ [] := by
      intro hnil
      rw [hnil] at hfind
      exact Option.noConfusion hfind
    have hmf : matchByForcedSku cat.hasForced sku
        (applyBootmatFilter title cat.rows) = some r := by
      unfold matchByForcedSku
      rw [hforced, if_pos rfl, if_neg hns, hfind]
    unfold find_best_match
    rw [if_neg hne, hmf]
  · intro hmf hidf hfind
    have hne : applyBootmatFilter title cat.rows ≠ [] := by
      intro hnil
      rw [hnil] at hfind
      exact Option.noConfusion hfind
    have hmi : matchBySkuIdentifier sku (applyBootmatFilter title cat.rows)
        = some r := by
      unfold matchBySkuIdentifier
      rw [if_neg hidf, hfind]
    unfold find_best_match
    rw [if_neg hne, hmf, hmi]

/-- Witness for the amended C2 theorem: a forced-override hit on the
second surviving row wins even though the first surviving row matches
the SKU identifier. -/
theorem C2_witness :
    find_best_match 2026 ("Q7") ("BMW X1 Car Mats")
      { hasForced := true, rows := [c2RowPlain, c2RowForced] } none
      = some c2RowForced := by
  exact (C2_matcher_amended 2026 ("Q7") ("BMW X1 Car Mats")
      { hasForced := true, rows := [c2RowPlain, c2RowForced] } none
      c2RowForced).1 rfl (by decide) (by decide)

/-! ## Claim C5: the year gate is guarded by truthiness, not
parseability

The claim says an unparseable year on either side skips the overlap
check; the code skips it only when a year string is empty.  A non-empty
unparseable year enters the check, whose parse failure then rejects the
match. -/

def c5Row : Row :=
  { template := "F1", templateNorm := "F1", company := "FORD",
    model := "Focus", year := "2010-2015", forcedNorm := "" }

/-- Claim C5, counterexample: with make and model matching a single
catalog row at positive score, the product year "TBD" is unparseable,
so the claim demands the overlap check be skipped and the row returned;
the code enters the check because "TBD" is non-empty and returns no
match.  An empty product year, by contrast, does skip the check. -/
theorem C5_counterexample :
    parseRange 2026 ("TBD") = none ∧
    matchByTitleDetails 2026
      { make := "ford", model := "focus", year := "TBD" } [c5Row] = none ∧
    matchByTitleDetails 2026
      { make := "ford", model := "focus", year := "" } [c5Row]
      = some c5Row := by
  refine ⟨by decide, by decide, by decide⟩

/-- Claim C5 (amended): when the make is truthy, the model word set is
non-empty and the strict-improvement scan of the make-filtered rows
yields a best row with positive score, the title path returns that row
when either year string is empty; when both are non-empty it returns
the row iff `check_year_match` holds, and an unparseable non-empty year
therefore rejects the match rather than skipping the check. -/
theorem C5_title_year_amended (year : Nat) (cd : CarDetails)
    (rows : List Row) (br : Row) (bs : Int)
    (hmk : loL cd.make.data ≠ [])
    (htw : modelWords cd.model ≠ [])
    (hscan : scanBest (modelWords cd.model)
        (rows.filter (fun r => loL r.company.data == loL cd.make.data))
        none (-1) = (some br, bs))
    (hbs : bs > 0) :
    matchByTitleDetails year cd rows =
      (if (cd.year != "") && (br.year != "") then
        (if check_year_match year cd.year br.year then some br else none)
       else some br) := by
  have hmm : rows.filter (fun r => loL r.company.data == loL cd.make.data)
      ≠ [] := by
    intro hnil
    rw [hnil] at hscan
    simp [scanBest] at hscan
  unfold matchByTitleDetails
  rw [if_neg (by simp [hmk, htw]), if_neg hmm, hscan]
  dsimp only
  rw [if_pos hbs]

/-- Witness for the amended C5 theorem: both years present and
overlapping, so the best-scoring row is returned. -/
theorem C5_witness :
    matchByTitleDetails 2026
      { make := "ford", model := "focus estate", year := "2012" } [c5Row]
      = some c5Row := by
  have h := C5_title_year_amended 2026
    { make := "ford", model := "focus estate", year := "2012" }
    [c5Row] c5Row 1 (by decide) (by decide) (by decide) (by decide)
  rw [h]
  decide

/-! ## services/color_extraction.py

`ALLOWED_COLORS` is a Python set, so its iteration order is
implementation-defined; it is fixed here as a list.  The regex searches
are insensitive to the alternation order because no color is a prefix
of another, so the only place the set order can matter is the
positional fallback that picks `available_colors[0]`; none of the
theorems below depend on which color that pick returns. -/

def colorList : List String :=
  ["red", "blue", "green", "grey", "silver", "yellow", "white",
   "orange", "purple", "brown", "pink", "black", "beige", "tan"]

/-- Python `str.capitalize` on the lowercase color words. -/
def capitalizeS (s : String) : String :=
  match s.data with
  | [] => ""
  | c :: cs => ⟨c.toUpper :: loL cs⟩

/-- Continuation check for the explicit-context patterns: whitespace,
then "trim" or "edge" (or "carpet"), then a word boundary. -/
def wordAfterWS (ws : List (List Char)) (rest : List Char) : Bool :=
  match many1 isWS rest with
  | some (_, r) =>
    ws.any (fun w => isPre w r && notWordHead (r.drop w.length))
  | none => false

/-- Leftmost regex search for a word-boundary-opened color followed by
a given continuation; returns the capitalized color group.  The boolean
tracks whether the previous character was a word character. -/
def searchColorSuffix (sc : List Char → Bool) : Bool → List Char → Option String
  | _, [] => none
  | prevW, c :: cs =>
    match (if prevW then none
           else colorList.findSome? (fun col =>
             if isPre col.data (c :: cs) && sc ((c :: cs).drop col.data.length)
             then some (capitalizeS col) else none)) with
    | some col => some col
    | none => searchColorSuffix sc (isWordC c) cs

/-- The explicit "Color Trim" / "Color Edge" search. -/
def explicitTrim (tl : List Char) : Option String :=
  searchColorSuffix (wordAfterWS [(("trim")).data, (("edge")).data]) false tl

/-- The explicit "Color Carpet" search. -/
def explicitCarpet (tl : List Char) : Option String :=
  searchColorSuffix (wordAfterWS [(("carpet")).data]) false tl

/-- Content of the first bracket pair: the lazy bracket regex matches
from the first opening bracket to the first closing bracket after it. -/
def bracketContent (l : List Char) : Option (List Char) :=
  match splitFirstOn [('[')] l with
  | some (_, rest) =>
    match splitFirstOn [(']')] rest with
    | some (content, _) => some content
    | none => none
  | none => none

/-- Continuation of the "ColorA with ColorB Trim" pattern after ColorA:
whitespace, "with", whitespace, ColorB, whitespace, "trim", boundary;
returns the capitalized ColorB. -/
def withTrimAfter (rest : List Char) : Option String :=
  match many1 isWS rest with
  | some (_, r1) =>
    if isPre ((("with")).data) r1 then
      match many1 isWS (r1.drop 4) with
      | some (_, r2) =>
        colorList.findSome? (fun col =>
          if isPre col.data r2 &&
              wordAfterWS [(("trim")).data] (r2.drop col.data.length)
          then some (capitalizeS col) else none)
      | none => none
    else none
  | none => none

/-- Leftmost search of the two-color "with trim" pattern; returns the
capitalized pair. -/
def searchWithTrim : Bool → List Char → Option (String × String)
  | _, [] => none
  | prevW, c :: cs =>
    match (if prevW then none
           else colorList.findSome? (fun col =>
             if isPre col.data (c :: cs) then
               (withTrimAfter ((c :: cs).drop col.data.length)).map
                 (fun t2 => (capitalizeS col, t2))
             else none)) with
    | some pr => some pr
    | none => searchWithTrim (isWordC c) cs

/-- The bracketed "ColorA with ColorB Trim" sub-pattern of the title. -/
def bracketWithTrim (tl : List Char) : Option (String × String) :=
  (bracketContent tl).bind (searchWithTrim false)

def rubberIn (tl : List Char) : Bool :=
  [("rubber" : String), "rubstd", "rubhd", "5mm"].any
    (fun k => occursIn k.data tl)

/-- Word-bounded occurrence of a pattern anywhere in the string. -/
def occursWordBounded (pat : List Char) : Bool → List Char → Bool
  | _, [] => false
  | prevW, c :: cs =>
    if !prevW && (isPre pat (c :: cs) && notWordHead ((c :: cs).drop pat.length))
    then true
    else occursWordBounded pat (isWordC c) cs

/-- `found_colors`: the allowed colors occurring word-bounded in the
title. -/
def found_colors (tl : List Char) : List String :=
  colorList.filter (fun col => occursWordBounded col.data false tl)

/-- Trim color after the explicit-context step (steps 1 to 3 of the
source). -/
def colorsTrim1 (tl : List Char) : String :=
  match explicitTrim tl with
  | some c => c
  | none => "Black"

/-- Carpet color after the rubber and explicit-context steps: rubber
forces Rubber and skips the explicit carpet search. -/
def colorsCarpet1 (tl : List Char) : String :=
  if rubberIn tl then "Rubber"
  else
    match explicitCarpet tl with
    | some c => c
    | none => "Black"

/-- Carpet color after the bracket step: the pattern overrides the
carpet only on non-rubber titles. -/
def colorsCarpet2 (tl : List Char) : String :=
  match bracketWithTrim tl with
  | some p => if rubberIn tl then colorsCarpet1 tl else p.1
  | none => colorsCarpet1 tl

/-- Trim color after the bracket step: the pattern overrides the trim
unconditionally. -/
def colorsTrim2 (tl : List Char) : String :=
  match bracketWithTrim tl with
  | some p => p.2
  | none => colorsTrim1 tl

/-- `available_colors` of the positional fallback: found colors whose
capitalization differs from the current trim. -/
def colorsAvail (tl : List Char) : List String :=
  (found_colors tl).filter (fun c => !(capitalizeS c == colorsTrim2 tl))

/-- Carpet color after the positional fallback: only when colors were
found, the carpet is still the default Black and the title is not
rubber. -/
def colorsCarpet3 (tl : List Char) : String :=
  if !(found_colors tl).isEmpty && (colorsCarpet2 tl == "Black")
      && !(rubberIn tl) then
    match colorsAvail tl with
    | a :: _ => capitalizeS a
    | [] => colorsCarpet2 tl
  else colorsCarpet2 tl

/-- Trim color after the final smart-default step: a still-default trim
copies a non-Black, non-Rubber carpet. -/
def colorsTrim3 (tl : List Char) : String :=
  if (colorsTrim2 tl == "Black") && !(colorsCarpet3 tl == "Black")
      && !(colorsCarpet3 tl == "Rubber")
  then colorsCarpet3 tl
  else colorsTrim2 tl

/-- `extract_carpet_and_trim_colors`; a non-string title is modelled as
`none` and yields the double default. -/
def extract_carpet_and_trim_colors : Option String → String × String
  | none => ("Black", "Black")
  | some t =>
    (colorsCarpet3 (stripL (loL t.data)), colorsTrim3 (stripL (loL t.data)))

/-! ## Claim C9: rubber titles break the trim-follows-carpet default

The smart-default step copies the carpet onto a still-default trim only
when the carpet is neither Black nor Rubber, so a rubber title with no
explicit trim keeps trim Black while the carpet reads Rubber. -/

theorem searchColorSuffix_mem (sc : List Char → Bool) :
    ∀ (w : Bool) (l : List Char) (c : String),
      searchColorSuffix sc w l = some c → ∃ col ∈ colorList, c = capitalizeS col := by
  intro w l
  induction l generalizing w with
  | nil => intro c h; simp [searchColorSuffix] at h
  | cons x xs ih =>
    intro c h
    unfold searchColorSuffix at h
    split at h
    next col heq =>
      have hc := Option.some.inj h
      by_cases hw : w
      · rw [if_pos hw] at heq
        exact Option.noConfusion heq
      · rw [if_neg hw] at heq
        obtain ⟨a, ha, hfa⟩ := List.exists_of_findSome?_eq_some heq
        by_cases hcond : isPre a.data (x :: xs) && sc ((x :: xs).drop a.data.length)
        · rw [if_pos hcond] at hfa
          exact ⟨a, ha, by rw [← hc, ← Option.some.inj hfa]⟩
        · rw [if_neg hcond] at hfa
          exact Option.noConfusion hfa
    next heq => exact ih _ _ h

/-- No capitalized allowed color reads "Rubber" or "Black" except black
itself. -/
theorem capitalize_colorList_ne_rubber :
    ∀ col ∈ colorList, capitalizeS col ≠ ("Rubber" : String) := by
  decide

theorem colorsCarpet1_ne_rubber (tl : List Char) (hrub : rubberIn tl = false) :
    colorsCarpet1 tl ≠ ("Rubber" : String) := by
  unfold colorsCarpet1
  rw [hrub]
  simp only [Bool.false_eq_true, if_false]
  cases hec : explicitCarpet tl with
  | none => decide
  | some c =>
    obtain ⟨col, hcol, hcap⟩ := searchColorSuffix_mem _ _ _ _ hec
    rw [hcap]
    exact capitalize_colorList_ne_rubber col hcol

theorem colorsCarpet2_ne_rubber (tl : List Char) (hrub : rubberIn tl = false)
    (h2 : bracketWithTrim tl = none) :
    colorsCarpet2 tl ≠ ("Rubber" : String) := by
  unfold colorsCarpet2
  rw [h2]
  exact colorsCarpet1_ne_rubber tl hrub

theorem colorsCarpet3_ne_rubber (tl : List Char) (hrub : rubberIn tl = false)
    (h2 : bracketWithTrim tl = none) :
    colorsCarpet3 tl ≠ ("Rubber" : String) := by
  unfold colorsCarpet3
  split
  · cases hav : colorsAvail tl with
    | nil => exact colorsCarpet2_ne_rubber tl hrub h2
    | cons a rest =>
      have hmem : a ∈ found_colors tl := by
        have : a ∈ colorsAvail tl := by
          rw [hav]
          exact List.mem_cons_self a rest
        exact (List.mem_filter.mp this).1
      have hcol : a ∈ colorList := (List.mem_filter.mp hmem).1
      exact capitalize_colorList_ne_rubber a hcol
  · exact colorsCarpet2_ne_rubber tl hrub h2

theorem colorsTrim2_black (tl : List Char)
    (h1 : explicitTrim tl = none) (h2 : bracketWithTrim tl = none) :
    colorsTrim2 tl = "Black" := by
  unfold colorsTrim2 colorsTrim1
  rw [h2, h1]

/-- Claim C9, counterexample: the title "Rubber Car Mats" has no
explicit trim phrase and no bracketed with-trim pattern, so the claim
demands trim = carpet; the code returns carpet Rubber with trim
Black. -/
theorem C9_counterexample :
    explicitTrim (stripL (loL (("Rubber Car Mats")).data)) = none ∧
    bracketWithTrim (stripL (loL (("Rubber Car Mats")).data)) = none ∧
    extract_carpet_and_trim_colors (some ("Rubber Car Mats"))
      = ("Rubber", "Black") ∧
    (extract_carpet_and_trim_colors (some ("Rubber Car Mats"))).2 ≠
      (extract_carpet_and_trim_colors (some ("Rubber Car Mats"))).1 := by
  refine ⟨by decide, by decide, by decide, by decide⟩

/-- Claim C9 (amended): with no explicit trim phrase and no bracketed
with-trim pattern, a rubber title always yields carpet Rubber and trim
Black; a non-rubber title yields trim equal to carpet; and a non-rubber
title with no explicit carpet phrase and no word-bounded color at all
yields the double Black default. -/
theorem C9_color_trim_amended (t : String)
    (h1 : explicitTrim (stripL (loL t.data)) = none)
    (h2 : bracketWithTrim (stripL (loL t.data)) = none) :
    (rubberIn (stripL (loL t.data)) = true →
      extract_carpet_and_trim_colors (some t) = ("Rubber", "Black")) ∧
    (rubberIn (stripL (loL t.data)) = false →
      (extract_carpet_and_trim_colors (some t)).2 =
        (extract_carpet_and_trim_colors (some t)).1) ∧
    (rubberIn (stripL (loL t.data)) = false →
     explicitCarpet (stripL (loL t.data)) = none →
     found_colors (stripL (loL t.data)) = [] →
      extract_carpet_and_trim_colors (some t) = ("Black", "Black")) := by
  refine ⟨?_, ?_, ?_⟩
  · intro hrub
    have hc1 : colorsCarpet1 (stripL (loL t.data)) = "Rubber" := by
      unfold colorsCarpet1
      rw [hrub]
      simp
    have hc2 : colorsCarpet2 (stripL (loL t.data)) = "Rubber" := by
      unfold colorsCarpet2
      rw [h2, hc1]
    have ht2 := colorsTrim2_black _ h1 h2
    have hc3 : colorsCarpet3 (stripL (loL t.data)) = "Rubber" := by
      unfold colorsCarpet3
      rw [hc2, hrub]
      simp
    have ht3 : colorsTrim3 (stripL (loL t.data)) = "Black" := by
      unfold colorsTrim3
      rw [ht2, hc3]
      simp
    show (colorsCarpet3 (stripL (loL t.data)), colorsTrim3 (stripL (loL t.data)))
      = ("Rubber", "Black")
    rw [hc3, ht3]
  · intro hrub
    have ht2 := colorsTrim2_black _ h1 h2
    have hcr := colorsCarpet3_ne_rubber _ hrub h2
    show colorsTrim3 (stripL (loL t.data)) = colorsCarpet3 (stripL (loL t.data))
    unfold colorsTrim3
    rw [ht2]
    by_cases hcb : colorsCarpet3 (stripL (loL t.data)) = "Black"
    · rw [hcb]
      simp
    · rw [if_pos]
      · simp [beq_iff_eq, hcb, hcr]
  · intro hrub hec hfc
    have ht2 := colorsTrim2_black _ h1 h2
    have hc1 : colorsCarpet1 (stripL (loL t.data)) = "Black" := by
      unfold colorsCarpet1
      rw [hrub, hec]
      simp
    have hc2 : colorsCarpet2 (stripL (loL t.data)) = "Black" := by
      unfold colorsCarpet2
      rw [h2, hc1]
    have hc3 : colorsCarpet3 (stripL (loL t.data)) = "Black" := by
      unfold colorsCarpet3
      rw [hc2, hfc]
      simp
    have ht3 : colorsTrim3 (stripL (loL t.data)) = "Black" := by
      unfold colorsTrim3
      rw [ht2, hc3]
      simp
    show (colorsCarpet3 (stripL (loL t.data)), colorsTrim3 (stripL (loL t.data)))
      = ("Black", "Black")
    rw [hc3, ht3]

/-- Witness for the amended C9 theorem: a plain color title, whose trim
follows the detected carpet color. -/
theorem C9_witness :
    (extract_carpet_and_trim_colors (some ("Red Car Mats"))).2 =
      (extract_carpet_and_trim_colors (some ("Red Car Mats"))).1 ∧
    extract_carpet_and_trim_colors (some ("Red Car Mats")) = ("Red", "Red") := by
  constructor
  · exact (C9_color_trim_amended ("Red Car Mats") (by decide) (by decide)).2.1
      (by decide)
  · decide

end EbayProc
